import Mathlib

/-!
# clisp: the evaluator of `parsing.c`

A shallow embedding of the value type `lval` and of the functions
`lval_read_num`, `lval_add`, `lval_read`, `lval_pop`, `lval_take`,
`builtin_op`, `lval_eval`, `lval_eval_sexpr`, `lval_print` and
`lval_expr_print` of `src/parsing.c`, followed by theorems about them.

Modelling conventions.

* A `long` is a mathematical integer; every arithmetic assignment of the C
  code (`+=`, `-=`, `*=`, `/=`, unary `-`) is followed by `wrap_long`, the
  reduction into the signed 64-bit range (two's complement wrap-around);
  for `/=` see below.
* An `lval*` that the C code owns and mutates in place is a value that is
  passed and returned; the cell array of an S-expression is a `List lval`.
  `lval_del` and `free` have no counterpart.
* A function that may index a cell array out of bounds returns an `Option`,
  `none` standing for the out-of-bounds access.
* The division `x->num /= y->num` of `LONG_MIN` by `-1`, which the code does
  not guard, kills the process (the quotient is not a `long`): the
  function returns `none` there as well. `lval_eval_divs` lists the
  divisions that an evaluation executes.
* `printf` and `putchar` append to the text that the function returns;
  `printf("%li", n)` writes `toString n`.
* A C string is a `String`; `strcmp(a, b) == 0` is `a = b`. The libc
  functions `strstr` and `strtol` are defined after the C standard.
* A pointer that may be `NULL` is an `Option`; dereferencing `NULL` gives
  `none`.
-/

/-- The tag `enum lval_type` of `parsing.c`. -/
inductive lval_type where
  | LVAL_NUM
  | LVAL_ERR
  | LVAL_SYM
  | LVAL_SEXPR
deriving DecidableEq, Repr

/-- The value `struct lval`: the tag together with the one payload that is
live for it (`num`, `err`, `sym`, or `count` and `cell`). -/
inductive lval where
  | num (n : Int)
  | err (m : String)
  | sym (s : String)
  | sexpr (cell : List lval)
deriving Repr

namespace lval

/-! ## Structural comparison of values -/

mutual
/-- Structural comparison of two values. -/
def beq : lval → lval → Bool
  | num a, num b => a == b
  | err a, err b => a == b
  | sym a, sym b => a == b
  | sexpr a, sexpr b => beqCells a b
  | _, _ => false
/-- Structural comparison of two cell arrays. -/
def beqCells : List lval → List lval → Bool
  | [], [] => true
  | a :: as, b :: bs => beq a b && beqCells as bs
  | _, _ => false
end

/-! ## The data model -/

/-- The field `v->type`. -/
def type : lval → lval_type
  | num _ => .LVAL_NUM
  | err _ => .LVAL_ERR
  | sym _ => .LVAL_SYM
  | sexpr _ => .LVAL_SEXPR

/-- Least value of a `long` (LP64). -/
def LONG_MIN : Int := -9223372036854775808

/-- Greatest value of a `long` (LP64). -/
def LONG_MAX : Int := 9223372036854775807

/-- The integer `z` is representable as a `long`. -/
def in_long (z : Int) : Prop := LONG_MIN ≤ z ∧ z ≤ LONG_MAX

instance (z : Int) : Decidable (in_long z) := by
  unfold in_long; infer_instance

/-- Reduction of an integer into the range of a `long`, modulo `2^64`. -/
def wrap_long (z : Int) : Int := (z + 9223372036854775808) % 18446744073709551616 - 9223372036854775808

/-! ## `lval_pop` and `lval_take` -/

/-- The function `lval_pop(v, i)` on the cell array of `v`: the item at `i`
and the array with that item removed; `none` when `i` is not an index. -/
def lval_pop (cell : List lval) (i : Nat) : Option (lval × List lval) :=
  if h : i < cell.length then some (cell.get ⟨i, h⟩, cell.eraseIdx i) else none

/-- The function `lval_take(v, i)`: the item at `i`, the rest is deleted. -/
def lval_take (cell : List lval) (i : Nat) : Option lval :=
  match lval_pop cell i with
  | some (x, _) => some x
  | none => none

/-! ## `builtin_op` -/

/-- The `while (a->count > 0)` loop of `builtin_op`: `x` is `x->num`, the
list is what is left of `a`; each round pops the item at index 0. The
division is guarded for a zero divisor only: dividing `LONG_MIN` by `-1`
kills the process, and the loop gives `none`. A round whose popped item is
not a number has no counterpart in the C code (the loop runs after the type
check) and gives `none`. -/
def builtin_op_loop (op : String) : Int → List lval → Option lval
  | x, [] => some (num x)
  | x, num y :: a =>
    let x1 := if op = "+" then wrap_long (x + y) else x
    let x2 := if op = "-" then wrap_long (x1 - y) else x1
    let x3 := if op = "*" then wrap_long (x2 * y) else x2
    if op = "/" then
      if y = 0 then some (err "Division by zero!")
      else if x3 = LONG_MIN ∧ y = -1 then none
      else builtin_op_loop op (wrap_long (Int.tdiv x3 y)) a
    else builtin_op_loop op x3 a
  | _, _ :: _ => none

/-- The function `builtin_op(a, op)` on the cell array of `a`. -/
def builtin_op (a : List lval) (op : String) : Option lval :=
  if a.any (fun c => decide (c.type ≠ .LVAL_NUM)) then
    some (err "Cannot operator on a non-number!")
  else
    match lval_pop a 0 with
    | some (num x, a1) =>
      let x1 := if op = "-" ∧ a1.length = 0 then wrap_long (-x) else x
      builtin_op_loop op x1 a1
    | _ => none

/-! ## `lval_eval` and `lval_eval_sexpr` -/

/-- The error-checking loop of `lval_eval_sexpr`: the least index whose cell
has type `LVAL_ERR`, if there is one. -/
def first_err : List lval → Option Nat
  | [] => none
  | c :: cs =>
    if c.type = .LVAL_ERR then some 0
    else match first_err cs with
      | some i => some (i + 1)
      | none => none

/-- The part of `lval_eval_sexpr` that follows the loop evaluating the
children; `cell` is the cell array after that loop. -/
def lval_eval_sexpr_reduce (cell : List lval) : Option lval :=
  match first_err cell with
  | some i => lval_take cell i
  | none =>
    if cell.length = 0 then some (sexpr cell)
    else if cell.length = 1 then lval_take cell 0
    else
      match lval_pop cell 0 with
      | some (f, v) =>
        match f with
        | sym s => builtin_op v s
        | _ => some (err "S-expression does not start with symbol!")
      | none => none

mutual
/-- The function `lval_eval(v)`. -/
def lval_eval : lval → Option lval
  | sexpr cell =>
    match lval_eval_cells cell with
    | some cell1 => lval_eval_sexpr_reduce cell1
    | none => none
  | v => some v
/-- The first loop of `lval_eval_sexpr`: every cell is replaced by its
evaluation, from left to right. -/
def lval_eval_cells : List lval → Option (List lval)
  | [] => some []
  | c :: cs =>
    match lval_eval c with
    | some c1 =>
      match lval_eval_cells cs with
      | some cs1 => some (c1 :: cs1)
      | none => none
    | none => none
end

/-- The function `lval_eval_sexpr(v)` on the cell array of `v`. -/
def lval_eval_sexpr (cell : List lval) : Option lval :=
  match lval_eval_cells cell with
  | some cell1 => lval_eval_sexpr_reduce cell1
  | none => none

/-! ## Evaluation with a bound on the depth of the call stack -/

/-- The loop evaluating the children, with `ev` for the recursive call. -/
def eval_cells_with (ev : lval → Option lval) : List lval → Option (List lval)
  | [] => some []
  | c :: cs =>
    match ev c with
    | some c1 =>
      match eval_cells_with ev cs with
      | some cs1 => some (c1 :: cs1)
      | none => none
    | none => none

/-- The function `lval_eval` run with at most `fuel` nested calls of
`lval_eval`; `none` also when the calls nest deeper than that. -/
def lval_eval_fuel : Nat → lval → Option lval
  | 0, _ => none
  | fuel + 1, sexpr cell =>
    match eval_cells_with (lval_eval_fuel fuel) cell with
    | some cell1 => lval_eval_sexpr_reduce cell1
    | none => none
  | _ + 1, v => some v

mutual
/-- Nesting depth of a value: the number of S-expressions on the longest
path from the root. -/
def depth : lval → Nat
  | sexpr cell => depthCells cell + 1
  | _ => 0
/-- Greatest nesting depth among the cells of an array. -/
def depthCells : List lval → Nat
  | [] => 0
  | c :: cs => max (depth c) (depthCells cs)
end

/-! ## `lval_print` and `lval_expr_print` -/

mutual
/-- The function `lval_print(v)`: the text written to the standard output. -/
def lval_print : lval → String
  | num n => toString n
  | err m => "Error: " ++ m
  | sym s => s
  | sexpr cell => "(" ++ lval_expr_print_loop cell ++ ")"
/-- The `for` loop of `lval_expr_print`: each cell is printed, followed by a
space unless it is the last one. -/
def lval_expr_print_loop : List lval → String
  | [] => ""
  | c :: cs => lval_print c ++ (if cs.length = 0 then "" else " ") ++ lval_expr_print_loop cs
end

/-- The function `lval_expr_print(v, open, close)` on the cell array of `v`. -/
def lval_expr_print (cell : List lval) (open_ close : Char) : String :=
  open_.toString ++ lval_expr_print_loop cell ++ close.toString

/-! ## What the specification says of the arithmetic -/

/-- The fold step the specification gives for `+`, `-` and `*`, on
mathematical integers. -/
def spec_arith (op : String) (acc operand : Int) : Int :=
  if op = "+" then acc + operand
  else if op = "-" then acc - operand
  else if op = "*" then acc * operand
  else acc

/-! ## The syntax tree and the libc functions the reader calls -/

/-- Modelled from the spec: the node type `mpc_ast_t` of `mpc.h`, which is
not among the sources: a tag, the literal text, and the ordered sequence of
child nodes (`tag`, `contents`, `children` and `children_num` in the code). -/
inductive mpc_ast_t where
  | mk (tag : String) (contents : String) (children : List mpc_ast_t)

/-- The field `t->tag`. -/
def mpc_ast_t.tag : mpc_ast_t → String
  | .mk tag _ _ => tag

/-- The field `t->contents`. -/
def mpc_ast_t.contents : mpc_ast_t → String
  | .mk _ contents _ => contents

/-- The field `t->children`, of length `t->children_num`. -/
def mpc_ast_t.children : mpc_ast_t → List mpc_ast_t
  | .mk _ _ children => children

/-- The libc test `strstr(hay, needle) != NULL`: `needle` occurs in `hay`. -/
def strstr (hay needle : String) : Bool :=
  hay.data.tails.any (fun t => needle.data.isPrefixOf t)

/-- The libc predicate `isspace` in the C locale. -/
def isspace (c : Char) : Bool :=
  c = ' ' || c = '\t' || c = '\n' || c = '\x0b' || c = '\x0c' || c = '\r'

/-- The digit loop of `strtol` in base 10: the digits at the head of the text
are accumulated into `acc`; the loop stops at the first other character. -/
def strtol_digits : Nat → List Char → Nat
  | acc, [] => acc
  | acc, c :: cs =>
    if c.isDigit then strtol_digits (acc * 10 + (c.toNat - '0'.toNat)) cs else acc

/-- The libc call `strtol(s, NULL, 10)` after `errno = 0`: white space is
skipped, a sign is read, the digits are converted; the result is the value
and whether `errno` is `ERANGE`. A value outside the range of a `long` is
replaced by `LONG_MIN` or `LONG_MAX` and sets `ERANGE`. -/
def strtol (s : String) : Int × Bool :=
  let cs := s.data.dropWhile isspace
  let neg : Bool := cs.head? = some '-'
  let ds := if cs.head? = some '-' ∨ cs.head? = some '+' then cs.tail else cs
  let m : Int := strtol_digits 0 ds
  let v : Int := if neg then -m else m
  if v < LONG_MIN then (LONG_MIN, true)
  else if LONG_MAX < v then (LONG_MAX, true)
  else (v, false)

/-! ## `lval_read_num`, `lval_add` and `lval_read` -/

/-- The function `lval_read_num(t)`, on the text `t->contents`. -/
def lval_read_num (contents : String) : lval :=
  let r := strtol contents
  if r.2 = false then num r.1 else err "invalid number"

/-- The function `lval_add(v, x)`: `x` is appended to the cell array of `v`;
`none` when `v` is not an S-expression. -/
def lval_add (v x : lval) : Option lval :=
  match v with
  | sexpr cell => some (sexpr (cell ++ [x]))
  | _ => none

mutual
/-- The function `lval_read(t)`; `none` stands for a `NULL` result and for
the dereference of a `NULL` accumulator. -/
def lval_read : mpc_ast_t → Option lval
  | .mk tag contents children =>
    if strstr tag "number" then some (lval_read_num contents)
    else if strstr tag "symbol" then some (sym contents)
    else
      let x0 : Option lval := if tag = ">" then some (sexpr []) else none
      let x1 : Option lval := if strstr tag "sexpr" then some (sexpr []) else x0
      lval_read_loop children x1
/-- The `for` loop of `lval_read` over the children that are left, with `x`
the accumulator (`none` for `NULL`). -/
def lval_read_loop : List mpc_ast_t → Option lval → Option lval
  | [], x => x
  | .mk ctag ccontents cchildren :: cs, x =>
    if ccontents = "(" then lval_read_loop cs x
    else if ccontents = ")" then lval_read_loop cs x
    else if ctag = "regex" then lval_read_loop cs x
    else
      match lval_read (.mk ctag ccontents cchildren), x with
      | some r, some v =>
        match lval_add v r with
        | some v1 => lval_read_loop cs (some v1)
        | none => none
      | _, _ => none
end

/-! ## What the specification says of the reader and the printer -/

/-- The integer denoted by a sequence of decimal digits, most significant
first: the sum of the digits weighted by the powers of ten. -/
def dec_value : List Char → Nat
  | [] => 0
  | c :: cs => (c.toNat - '0'.toNat) * 10 ^ cs.length + dec_value cs

/-- The child nodes that the specification keeps: the text is neither `(`
nor `)` and the tag is not `regex`. -/
def kept (c : mpc_ast_t) : Bool :=
  decide (c.contents ≠ "(") && decide (c.contents ≠ ")") && decide (c.tag ≠ "regex")

mutual
/-- The rendering of a value that the specification describes. -/
def render : lval → String
  | num n => toString n
  | err m => "Error: " ++ m
  | sym s => s
  | sexpr cell => "(" ++ String.intercalate " " (render_cells cell) ++ ")"
/-- The renderings of the cells of an array. -/
def render_cells : List lval → List String
  | [] => []
  | c :: cs => render c :: render_cells cs
end

/-! ## The divisions made during an evaluation -/

/-- The division of `x` by `y` that kills the process: `LONG_MIN / -1`. -/
def div_overflow (p : Int × Int) : Prop := p.1 = LONG_MIN ∧ p.2 = -1

instance (p : Int × Int) : Decidable (div_overflow p) := by
  unfold div_overflow; infer_instance

/-- The divisions `x->num /= y->num` executed by the `while` loop of
`builtin_op`, as pairs of dividend and divisor, in the order they are
executed; the list ends at a zero divisor and at a division of `LONG_MIN`
by `-1`. -/
def builtin_op_loop_divs (op : String) : Int → List lval → List (Int × Int)
  | _, [] => []
  | x, num y :: a =>
    let x1 := if op = "+" then wrap_long (x + y) else x
    let x2 := if op = "-" then wrap_long (x1 - y) else x1
    let x3 := if op = "*" then wrap_long (x2 * y) else x2
    if op = "/" then
      if y = 0 then []
      else if x3 = LONG_MIN ∧ y = -1 then [(x3, y)]
      else (x3, y) :: builtin_op_loop_divs op (wrap_long (Int.tdiv x3 y)) a
    else builtin_op_loop_divs op x3 a
  | _, _ :: _ => []

/-- The divisions executed by `builtin_op(a, op)`. -/
def builtin_op_divs (a : List lval) (op : String) : List (Int × Int) :=
  if a.any (fun c => decide (c.type ≠ .LVAL_NUM)) then []
  else
    match lval_pop a 0 with
    | some (num x, a1) =>
      let x1 := if op = "-" ∧ a1.length = 0 then wrap_long (-x) else x
      builtin_op_loop_divs op x1 a1
    | _ => []

/-- The divisions executed by the part of `lval_eval_sexpr` that follows the
loop evaluating the children. -/
def lval_eval_sexpr_reduce_divs (cell : List lval) : List (Int × Int) :=
  match first_err cell with
  | some _ => []
  | none =>
    if cell.length = 0 then []
    else if cell.length = 1 then []
    else
      match lval_pop cell 0 with
      | some (sym s, v) => builtin_op_divs v s
      | _ => []

mutual
/-- The divisions executed by `lval_eval(v)`, in the order they are
executed, up to the first division of `LONG_MIN` by `-1`. -/
def lval_eval_divs : lval → List (Int × Int)
  | sexpr cell =>
    lval_eval_cells_divs cell ++
      (match lval_eval_cells cell with
       | some cell1 => lval_eval_sexpr_reduce_divs cell1
       | none => [])
  | _ => []
/-- The divisions executed by the loop evaluating the children; the loop
goes no further than a child whose evaluation does not return. -/
def lval_eval_cells_divs : List lval → List (Int × Int)
  | [] => []
  | c :: cs =>
    lval_eval_divs c ++
      (match lval_eval c with
       | some _ => lval_eval_cells_divs cs
       | none => [])
end

/-! ## The calls made during an evaluation -/

/-- A call whose argument must be within bounds: `lval_pop(v, i)`, directly
or through `lval_take`, with `count` the value of `v->count` at the call, and
`builtin_op(a, op)` with `count` the value of `a->count`. -/
inductive call where
  | pop (count : Nat) (i : Nat)
  | builtin (count : Nat)
deriving DecidableEq, Repr

/-- The call is within bounds: the index of a pop is less than the count,
the operand list of `builtin_op` is not empty. -/
def call.ok : call → Prop
  | .pop count i => i < count
  | .builtin count => 0 < count

instance (c : call) : Decidable c.ok := by
  cases c <;> unfold call.ok <;> infer_instance

/-- The pops made by the `while` loop of `builtin_op` on what is left of
`a`: one pop at index 0 each round, until the list is empty or the loop
breaks at a zero divisor. -/
def builtin_op_loop_calls (op : String) : List lval → List call
  | [] => []
  | num y :: a =>
    call.pop (a.length + 1) 0 ::
      (if op = "/" ∧ y = 0 then [] else builtin_op_loop_calls op a)
  | _ :: a => call.pop (a.length + 1) 0 :: builtin_op_loop_calls op a

/-- The calls made by `builtin_op(a, op)`, itself included. -/
def builtin_op_calls (a : List lval) (op : String) : List call :=
  call.builtin a.length ::
    (if a.any (fun c => decide (c.type ≠ .LVAL_NUM)) then []
     else call.pop a.length 0 :: builtin_op_loop_calls op a.tail)

/-- The calls made by the part of `lval_eval_sexpr` that follows the loop
evaluating the children. -/
def lval_eval_sexpr_reduce_calls (cell : List lval) : List call :=
  match first_err cell with
  | some i => [call.pop cell.length i]
  | none =>
    if cell.length = 0 then []
    else if cell.length = 1 then [call.pop cell.length 0]
    else
      call.pop cell.length 0 ::
        (match cell with
         | sym s :: v => builtin_op_calls v s
         | _ => [])

mutual
/-- The calls made by `lval_eval(v)`, in the order they are made. -/
def lval_eval_calls : lval → List call
  | sexpr cell =>
    lval_eval_cells_calls cell ++
      (match lval_eval_cells cell with
       | some cell1 => lval_eval_sexpr_reduce_calls cell1
       | none => [])
  | _ => []
/-- The calls made by the loop evaluating the children. -/
def lval_eval_cells_calls : List lval → List call
  | [] => []
  | c :: cs => lval_eval_calls c ++ lval_eval_cells_calls cs
end

/-! ## Decidable equality of values -/

mutual
theorem beq_iff : ∀ (a b : lval), beq a b = true ↔ a = b
  | num a, num b => by simp [beq]
  | err a, err b => by simp [beq]
  | sym a, sym b => by simp [beq]
  | sexpr a, sexpr b => by simp [beq, beqCells_iff a b]
  | num _, err _ | num _, sym _ | num _, sexpr _ => by simp [beq]
  | err _, num _ | err _, sym _ | err _, sexpr _ => by simp [beq]
  | sym _, num _ | sym _, err _ | sym _, sexpr _ => by simp [beq]
  | sexpr _, num _ | sexpr _, err _ | sexpr _, sym _ => by simp [beq]
theorem beqCells_iff : ∀ (a b : List lval), beqCells a b = true ↔ a = b
  | [], [] => by simp [beqCells]
  | a :: as, b :: bs => by simp [beqCells, beq_iff a b, beqCells_iff as bs]
  | [], _ :: _ => by simp [beqCells]
  | _ :: _, [] => by simp [beqCells]
end

instance : DecidableEq lval := fun a b =>
  decidable_of_iff (beq a b = true) (beq_iff a b)

/-! ## Lemmas on the helper functions -/

theorem lval_pop_zero_cons (c : lval) (cs : List lval) :
    lval_pop (c :: cs) 0 = some (c, cs) := by
  simp [lval_pop]

theorem lval_take_of_lt (cell : List lval) (i : Nat) (h : i < cell.length) :
    lval_take cell i = some (cell.get ⟨i, h⟩) := by
  simp [lval_take, lval_pop, h]

theorem first_err_none_iff (cell : List lval) :
    first_err cell = none ↔ ∀ c ∈ cell, c.type ≠ .LVAL_ERR := by
  induction cell with
  | nil => simp [first_err]
  | cons c cs ih =>
    by_cases hc : c.type = .LVAL_ERR
    · simp [first_err, hc]
    · cases hf : first_err cs with
      | none => simpa [first_err, hc, hf] using ih.mp hf
      | some i =>
        have : ¬ ∀ c ∈ cs, c.type ≠ .LVAL_ERR := fun h => by
          rw [ih.mpr h] at hf; cases hf
        simpa [first_err, hc, hf] using this

theorem first_err_some_iff (cell : List lval) (i : Nat) :
    first_err cell = some i ↔
      ∃ h : i < cell.length, (cell.get ⟨i, h⟩).type = .LVAL_ERR ∧
        ∀ j (hj : j < i), (cell.get ⟨j, Nat.lt_trans hj h⟩).type ≠ .LVAL_ERR := by
  induction cell generalizing i with
  | nil => simp [first_err]
  | cons c cs ih =>
    by_cases hc : c.type = .LVAL_ERR
    · cases i with
      | zero => simp [first_err, hc]
      | succ k =>
        simp only [first_err, hc, if_true]
        constructor
        · intro h; cases h
        · rintro ⟨_, _, h3⟩
          exact absurd hc (h3 0 (Nat.succ_pos k))
    · cases i with
      | zero =>
        cases hf : first_err cs <;> simp [first_err, hc, hf]
      | succ k =>
        cases hf : first_err cs with
        | none =>
          simp only [first_err, hc, if_false, hf]
          constructor
          · intro h; cases h
          · rintro ⟨h1, h2, _⟩
            have := (first_err_none_iff cs).mp hf (cs.get ⟨k, Nat.lt_of_succ_lt_succ h1⟩)
              (List.get_mem _ _ _)
            exact absurd h2 this
        | some i0 =>
          simp only [first_err, hc, if_false, hf, Option.some.injEq, Nat.add_right_cancel_iff]
          rw [← Option.some.injEq, ← hf, ih k]
          constructor
          · rintro ⟨h1, h2, h3⟩
            refine ⟨Nat.succ_lt_succ h1, h2, ?_⟩
            intro j hj
            cases j with
            | zero => exact hc
            | succ j0 => exact h3 j0 (Nat.lt_of_succ_lt_succ hj)
          · rintro ⟨h1, h2, h3⟩
            refine ⟨Nat.lt_of_succ_lt_succ h1, h2, ?_⟩
            intro j hj
            exact h3 (j + 1) (Nat.succ_lt_succ hj)

theorem wrap_long_of_in_long (z : Int) (h : in_long z) : wrap_long z = z := by
  unfold in_long LONG_MIN LONG_MAX at h
  unfold wrap_long
  omega

theorem in_long_wrap_long (z : Int) : in_long (wrap_long z) := by
  unfold in_long LONG_MIN LONG_MAX wrap_long
  omega

theorem type_num_iff (c : lval) : c.type = .LVAL_NUM ↔ ∃ n, c = num n := by
  cases c <;> simp [type]

theorem type_err_iff (c : lval) : c.type = .LVAL_ERR ↔ ∃ m, c = err m := by
  cases c <;> simp [type]

theorem type_sym_iff (c : lval) : c.type = .LVAL_SYM ↔ ∃ s, c = sym s := by
  cases c <;> simp [type]

theorem all_num_eq_map (a : List lval) (h : ∀ c ∈ a, c.type = .LVAL_NUM) :
    ∃ ns : List Int, a = ns.map num := by
  induction a with
  | nil => exact ⟨[], rfl⟩
  | cons c cs ih =>
    obtain ⟨n, rfl⟩ := (type_num_iff c).mp (h c (List.mem_cons_self _ _))
    obtain ⟨ns, rfl⟩ := ih (fun d hd => h d (List.mem_cons_of_mem _ hd))
    exact ⟨n :: ns, rfl⟩

theorem builtin_op_loop_none_iff (op : String) (x : Int) (ns : List Int) :
    builtin_op_loop op x (ns.map num) = none ↔
      ∃ p ∈ builtin_op_loop_divs op x (ns.map num), div_overflow p := by
  induction ns generalizing x with
  | nil => simp [builtin_op_loop, builtin_op_loop_divs]
  | cons y ys ih =>
    simp only [List.map_cons, builtin_op_loop, builtin_op_loop_divs]
    by_cases hd : op = "/"
    · subst hd
      by_cases hy : y = 0
      · simp [hy]
      · simp only [if_true, hy, if_false]
        by_cases ht : (if "/" = "*" then
            wrap_long ((if "/" = "-" then wrap_long ((if "/" = "+" then wrap_long (x + y)
              else x) - y) else if "/" = "+" then wrap_long (x + y) else x) * y)
            else if "/" = "-" then wrap_long ((if "/" = "+" then wrap_long (x + y) else x) - y)
            else if "/" = "+" then wrap_long (x + y) else x) = LONG_MIN ∧ y = -1
        · rw [if_pos ht, if_pos ht]
          simp only [List.mem_singleton, exists_eq_left, true_iff]
          exact ht
        · rw [if_neg ht, if_neg ht]
          rw [ih]
          simp only [List.mem_cons, exists_eq_or_imp]
          constructor
          · intro h; exact Or.inr h
          · rintro (h | h)
            · exact absurd h ht
            · exact h
    · simp only [hd, if_false]
      exact ih _

theorem any_not_num_map (ns : List Int) :
    (ns.map num).any (fun c => decide (c.type ≠ .LVAL_NUM)) = false := by
  induction ns with
  | nil => rfl
  | cons y ys ih => simp [type]

theorem builtin_op_map_cons (op : String) (x : Int) (ns : List Int) :
    builtin_op (num x :: ns.map num) op =
      builtin_op_loop op (if op = "-" ∧ ns.length = 0 then wrap_long (-x) else x)
        (ns.map num) := by
  have h := any_not_num_map (x :: ns)
  simp only [List.map_cons] at h
  simp only [builtin_op, h, lval_pop_zero_cons, List.length_map]
  simp

theorem builtin_op_of_not_num (op : String) (a : List lval)
    (h : ∃ c ∈ a, c.type ≠ .LVAL_NUM) :
    builtin_op a op = some (err "Cannot operator on a non-number!") := by
  have : a.any (fun c => decide (c.type ≠ .LVAL_NUM)) = true := by
    obtain ⟨c, hc, hn⟩ := h
    exact List.any_eq_true.mpr ⟨c, hc, by simpa using hn⟩
  unfold builtin_op
  rw [if_pos this]

theorem builtin_op_divs_map_cons (op : String) (x : Int) (ns : List Int) :
    builtin_op_divs (num x :: ns.map num) op =
      builtin_op_loop_divs op (if op = "-" ∧ ns.length = 0 then wrap_long (-x) else x)
        (ns.map num) := by
  have h := any_not_num_map (x :: ns)
  simp only [List.map_cons] at h
  simp only [builtin_op_divs, h, lval_pop_zero_cons, List.length_map]
  simp

theorem builtin_op_divs_of_not_num (op : String) (a : List lval)
    (h : ∃ c ∈ a, c.type ≠ .LVAL_NUM) : builtin_op_divs a op = [] := by
  have : a.any (fun c => decide (c.type ≠ .LVAL_NUM)) = true := by
    obtain ⟨c, hc, hn⟩ := h
    exact List.any_eq_true.mpr ⟨c, hc, by simpa using hn⟩
  unfold builtin_op_divs
  rw [if_pos this]

theorem builtin_op_none_iff (op : String) (c : lval) (cs : List lval) :
    builtin_op (c :: cs) op = none ↔ ∃ p ∈ builtin_op_divs (c :: cs) op, div_overflow p := by
  by_cases h : ∃ d ∈ c :: cs, d.type ≠ .LVAL_NUM
  · rw [builtin_op_of_not_num op _ h, builtin_op_divs_of_not_num op _ h]
    simp
  · have h1 : ∀ d ∈ c :: cs, d.type = .LVAL_NUM := by
      intro d hd
      by_contra hne
      exact h ⟨d, hd, hne⟩
    obtain ⟨ns, hns⟩ := all_num_eq_map _ h1
    cases ns with
    | nil => cases hns
    | cons n ns =>
      rw [hns, List.map_cons, builtin_op_map_cons, builtin_op_divs_map_cons]
      exact builtin_op_loop_none_iff _ _ _

theorem lval_eval_sexpr_reduce_none_iff (cell : List lval) :
    lval_eval_sexpr_reduce cell = none ↔
      ∃ p ∈ lval_eval_sexpr_reduce_divs cell, div_overflow p := by
  unfold lval_eval_sexpr_reduce lval_eval_sexpr_reduce_divs
  cases hf : first_err cell with
  | some i =>
    obtain ⟨h, _, _⟩ := (first_err_some_iff cell i).mp hf
    simp [lval_take_of_lt cell i h]
  | none =>
    match cell with
    | [] => simp
    | [c] => simp [lval_take, lval_pop]
    | f :: c :: cs =>
      simp only [List.length_cons, lval_pop_zero_cons]
      cases f with
      | sym s =>
        have h := builtin_op_none_iff s c cs
        simpa using h
      | num n => simp
      | err m => simp
      | sexpr l => simp

mutual
theorem lval_eval_none_iff : ∀ v : lval,
    lval_eval v = none ↔ ∃ p ∈ lval_eval_divs v, div_overflow p
  | num n => by simp [lval_eval, lval_eval_divs]
  | err m => by simp [lval_eval, lval_eval_divs]
  | sym s => by simp [lval_eval, lval_eval_divs]
  | sexpr cell => by
    have hc := lval_eval_cells_none_iff cell
    simp only [lval_eval, lval_eval_divs, List.mem_append]
    cases hcs : lval_eval_cells cell with
    | none =>
      rw [hcs] at hc
      obtain ⟨p, hp, hov⟩ := hc.mp rfl
      simp only [true_iff]
      exact ⟨p, Or.inl hp, hov⟩
    | some cs =>
      rw [hcs] at hc
      have hno : ¬ ∃ p ∈ lval_eval_cells_divs cell, div_overflow p := fun h => by
        have := hc.mpr h
        cases this
      simp only
      rw [lval_eval_sexpr_reduce_none_iff]
      constructor
      · rintro ⟨p, hp, hov⟩
        exact ⟨p, Or.inr hp, hov⟩
      · rintro ⟨p, hp | hp, hov⟩
        · exact absurd ⟨p, hp, hov⟩ hno
        · exact ⟨p, hp, hov⟩
theorem lval_eval_cells_none_iff : ∀ cell : List lval,
    lval_eval_cells cell = none ↔ ∃ p ∈ lval_eval_cells_divs cell, div_overflow p
  | [] => by simp [lval_eval_cells, lval_eval_cells_divs]
  | c :: cs => by
    have h1 := lval_eval_none_iff c
    have h2 := lval_eval_cells_none_iff cs
    simp only [lval_eval_cells, lval_eval_cells_divs, List.mem_append]
    cases hc : lval_eval c with
    | none =>
      rw [hc] at h1
      obtain ⟨p, hp, hov⟩ := h1.mp rfl
      simp only [true_iff]
      exact ⟨p, Or.inl hp, hov⟩
    | some r =>
      rw [hc] at h1
      have hno : ¬ ∃ p ∈ lval_eval_divs c, div_overflow p := fun h => by
        have := h1.mpr h
        cases this
      simp only
      cases hcs : lval_eval_cells cs with
      | none =>
        rw [hcs] at h2
        obtain ⟨p, hp, hov⟩ := h2.mp rfl
        simp only [true_iff]
        exact ⟨p, Or.inr hp, hov⟩
      | some rs =>
        rw [hcs] at h2
        constructor
        · intro h; cases h
        · rintro ⟨p, hp | hp, hov⟩
          · exact absurd ⟨p, hp, hov⟩ hno
          · have := h2.mpr ⟨p, hp, hov⟩
            cases this
end

theorem lval_eval_returns (v : lval) (h : ∀ p ∈ lval_eval_divs v, ¬ div_overflow p) :
    ∃ r, lval_eval v = some r := by
  cases hv : lval_eval v with
  | some r => exact ⟨r, rfl⟩
  | none =>
    obtain ⟨p, hp, hov⟩ := (lval_eval_none_iff v).mp hv
    exact absurd hov (h p hp)

theorem lval_eval_cells_returns (cell : List lval) (h : ∀ c ∈ cell, lval_eval c ≠ none) :
    ∃ cs, lval_eval_cells cell = some cs := by
  induction cell with
  | nil => exact ⟨[], by simp [lval_eval_cells]⟩
  | cons c rest ih =>
    obtain ⟨rs, hrs⟩ := ih (fun d hd => h d (List.mem_cons_of_mem _ hd))
    cases hc : lval_eval c with
    | none => exact absurd hc (h c (List.mem_cons_self _ _))
    | some r => exact ⟨r :: rs, by simp [lval_eval_cells, hc, hrs]⟩

theorem lval_eval_cells_map (cell cs : List lval) :
    lval_eval_cells cell = some cs ↔ cell.map lval_eval = cs.map some := by
  induction cell generalizing cs with
  | nil => cases cs <;> simp [lval_eval_cells]
  | cons c rest ih =>
    cases h : lval_eval c with
    | none =>
      cases cs with
      | nil => simp [lval_eval_cells, h]
      | cons d ds => simp [lval_eval_cells, h]
    | some r =>
      cases hs : lval_eval_cells rest with
      | none =>
        cases cs with
        | nil => simp [lval_eval_cells, h, hs]
        | cons d ds =>
          simp only [lval_eval_cells, h, hs, List.map_cons, List.cons.injEq]
          constructor
          · intro h0; cases h0
          · rintro ⟨_, h2⟩
            have := (ih ds).mpr h2
            rw [hs] at this
            cases this
      | some rs =>
        have ih1 := (ih rs).mp hs
        cases cs with
        | nil => simp [lval_eval_cells, h, hs]
        | cons d ds =>
          simp only [lval_eval_cells, h, hs, List.map_cons, Option.some.injEq, List.cons.injEq,
            ih1]
          constructor
          · rintro ⟨h1, h2⟩; exact ⟨by rw [h1], by rw [h2]⟩
          · rintro ⟨h1, h2⟩
            exact ⟨h1, List.map_injective_iff.mpr (Option.some_injective _) h2⟩

theorem lval_eval_sexpr_eq (cell : List lval) :
    lval_eval (sexpr cell) = lval_eval_sexpr cell := by
  simp [lval_eval, lval_eval_sexpr]

mutual
theorem lval_eval_fuel_eq : ∀ (v : lval) (fuel : Nat), depth v < fuel →
    lval_eval_fuel fuel v = lval_eval v
  | num n, fuel, h => by cases fuel <;> simp_all [lval_eval_fuel, lval_eval]
  | err m, fuel, h => by cases fuel <;> simp_all [lval_eval_fuel, lval_eval]
  | sym s, fuel, h => by cases fuel <;> simp_all [lval_eval_fuel, lval_eval]
  | sexpr cell, fuel, h => by
    cases fuel with
    | zero => cases h
    | succ f =>
      have hc : depthCells cell < f := by
        simp only [depth] at h; omega
      simp only [lval_eval_fuel, lval_eval, eval_cells_fuel_eq cell f hc]
theorem eval_cells_fuel_eq : ∀ (cell : List lval) (fuel : Nat), depthCells cell < fuel →
    eval_cells_with (lval_eval_fuel fuel) cell = lval_eval_cells cell
  | [], _, _ => by simp [eval_cells_with, lval_eval_cells]
  | c :: cs, fuel, h => by
    simp only [depthCells] at h
    have h1 : depth c < fuel := lt_of_le_of_lt (le_max_left _ _) h
    have h2 : depthCells cs < fuel := lt_of_le_of_lt (le_max_right _ _) h
    simp only [eval_cells_with, lval_eval_cells, lval_eval_fuel_eq c fuel h1,
      eval_cells_fuel_eq cs fuel h2]
end

/-! ## Evaluation of an operator applied to numbers -/

theorem lval_eval_cells_atoms (cell : List lval) (h : ∀ c ∈ cell, c.type ≠ .LVAL_SEXPR) :
    lval_eval_cells cell = some cell := by
  rw [lval_eval_cells_map]
  apply List.map_congr_left
  intro c hc
  have := h c hc
  cases c <;> simp_all [lval_eval, type]

theorem lval_eval_sym_nums (op : String) (n0 : Int) (rest : List Int) :
    lval_eval (sexpr (sym op :: num n0 :: rest.map num)) =
      builtin_op (num n0 :: rest.map num) op := by
  have hcells : lval_eval_cells (sym op :: num n0 :: rest.map num) =
      some (sym op :: num n0 :: rest.map num) := by
    apply lval_eval_cells_atoms
    intro c hc
    simp only [List.mem_cons, List.mem_map] at hc
    rcases hc with rfl | rfl | ⟨n, _, rfl⟩ <;> simp [type]
  have hferr : first_err (sym op :: num n0 :: rest.map num) = none := by
    rw [first_err_none_iff]
    intro c hc
    simp only [List.mem_cons, List.mem_map] at hc
    rcases hc with rfl | rfl | ⟨n, _, rfl⟩ <;> simp [type]
  simp only [lval_eval, hcells, lval_eval_sexpr_reduce, hferr, lval_pop_zero_cons]
  simp

theorem builtin_op_loop_arith (op : String) (hop : op = "+" ∨ op = "-" ∨ op = "*")
    (x : Int) (ns : List Int)
    (hrange : ∀ j, 1 ≤ j → j ≤ ns.length → in_long ((ns.take j).foldl (spec_arith op) x)) :
    builtin_op_loop op x (ns.map num) = some (num (ns.foldl (spec_arith op) x)) := by
  induction ns generalizing x with
  | nil => rfl
  | cons y ys ih =>
    have h1 : in_long (spec_arith op x y) := by
      simpa using hrange 1 (le_refl 1) (by simp)
    have hstep : builtin_op_loop op x (num y :: ys.map num) =
        builtin_op_loop op (spec_arith op x y) (ys.map num) := by
      rcases hop with rfl | rfl | rfl
      · have h2 : wrap_long (x + y) = x + y :=
          wrap_long_of_in_long _ (by simpa [spec_arith] using h1)
        simp [builtin_op_loop, spec_arith, h2]
      · have h2 : wrap_long (x - y) = x - y :=
          wrap_long_of_in_long _ (by simpa [spec_arith] using h1)
        simp [builtin_op_loop, spec_arith, h2]
      · have h2 : wrap_long (x * y) = x * y :=
          wrap_long_of_in_long _ (by simpa [spec_arith] using h1)
        simp [builtin_op_loop, spec_arith, h2]
    rw [List.map_cons, hstep, List.foldl_cons]
    apply ih
    intro j hj1 hj2
    have := hrange (j + 1) (by omega) (by simpa using hj2)
    simpa using this

theorem in_long_tdiv (x y : Int) (hx : in_long x) (hy : y ≠ 0)
    (hov : ¬ (x = LONG_MIN ∧ y = -1)) : in_long (Int.tdiv x y) := by
  have habs := Int.natAbs_tdiv x y
  have hle : x.natAbs / y.natAbs ≤ x.natAbs := Nat.div_le_self _ _
  have habs1 : (Int.tdiv x y).natAbs = x.natAbs / y.natAbs := habs
  unfold in_long LONG_MIN LONG_MAX at *
  by_cases h1 : y = 1
  · subst h1
    simp only [Int.tdiv_one]
    exact hx
  · by_cases h2 : y = -1
    · subst h2
      have : Int.tdiv x (-1) = -x := by
        rw [Int.tdiv_neg, Int.tdiv_one]
      rw [this]
      have hx1 : x ≠ -9223372036854775808 := fun h => hov ⟨h, rfl⟩
      omega
    · have hy2 : 2 ≤ y.natAbs := by omega
      have hhalf : x.natAbs / y.natAbs ≤ x.natAbs / 2 :=
        Nat.div_le_div_left hy2 (by decide)
      omega

theorem builtin_op_loop_div_step (x y : Int) (a : List lval) :
    builtin_op_loop "/" x (num y :: a) =
      if y = 0 then some (err "Division by zero!")
      else if x = LONG_MIN ∧ y = -1 then none
      else builtin_op_loop "/" (wrap_long (Int.tdiv x y)) a := by
  simp [builtin_op_loop]

theorem builtin_op_loop_div_zero_mem (x : Int) (ns : List Int)
    (h : builtin_op_loop "/" x (ns.map num) = some (err "Division by zero!")) : 0 ∈ ns := by
  induction ns generalizing x with
  | nil => simp [builtin_op_loop] at h
  | cons y ys ih =>
    rw [List.map_cons, builtin_op_loop_div_step] at h
    by_cases hy : y = 0
    · simp [hy]
    · rw [if_neg hy] at h
      by_cases ht : x = LONG_MIN ∧ y = -1
      · rw [if_pos ht] at h
        cases h
      · rw [if_neg ht] at h
        exact List.mem_cons_of_mem _ (ih _ h)

theorem builtin_op_loop_div_first_zero (x : Int) (pre post : List Int) (hx : in_long x)
    (hpre : 0 ∉ pre)
    (hov : ∀ p q : List Int, pre = p ++ (-1) :: q → p.foldl Int.tdiv x ≠ LONG_MIN) :
    builtin_op_loop "/" x ((pre ++ 0 :: post).map num) = some (err "Division by zero!") := by
  induction pre generalizing x with
  | nil =>
    rw [List.nil_append, List.map_cons, builtin_op_loop_div_step]
    simp
  | cons y ys ih =>
    have hy : y ≠ 0 := fun h => hpre (by simp [h])
    have ht : ¬ (x = LONG_MIN ∧ y = -1) := by
      rintro ⟨h1, h2⟩
      subst h2
      exact hov [] ys rfl h1
    rw [List.cons_append, List.map_cons, builtin_op_loop_div_step, if_neg hy, if_neg ht,
      wrap_long_of_in_long _ (in_long_tdiv x y hx hy ht)]
    apply ih _ (in_long_tdiv x y hx hy ht) (fun h => hpre (List.mem_cons_of_mem _ h))
    intro p q hpq
    have := hov (y :: p) q (by rw [hpq]; rfl)
    simpa using this

/-! ## The claims on the evaluator -/

/-- C1: for an operator among `+`, `-`, `*` and at least two number operands
`n0, rest` none of whose partial results leaves the range of a `long`,
`lval_eval` of `(op n0 rest...)` is the number obtained by the strict left
fold of the operator over the operands. -/
theorem lval_eval_arith_left_fold (op : String) (n0 : Int) (rest : List Int)
    (hop : op = "+" ∨ op = "-" ∨ op = "*") (hne : rest ≠ [])
    (hrange : ∀ j, 1 ≤ j → j ≤ rest.length →
      in_long ((rest.take j).foldl (spec_arith op) n0)) :
    lval_eval (sexpr (sym op :: num n0 :: rest.map num)) =
      some (num (rest.foldl (spec_arith op) n0)) := by
  have hlen : ¬ rest.length = 0 := fun h => hne (List.length_eq_zero.mp h)
  rw [lval_eval_sym_nums, builtin_op_map_cons]
  simp only [hlen, and_false, if_false]
  exact builtin_op_loop_arith op hop n0 rest hrange

/-- C1, at `(- 10 2 3)`: the result is `Number(5)`. -/
theorem lval_eval_arith_left_fold_witness :
    lval_eval (sexpr [sym "-", num 10, num 2, num 3]) = some (num 5) :=
  lval_eval_arith_left_fold "-" 10 [2, 3] (by decide) (by decide) (by
    intro j h1 h2
    have h3 : j ≤ 2 := h2
    interval_cases j <;> decide)

/-- C2, as stated, fails at `(/ LONG_MIN -1 0)`: an operand after the first
is 0, but the division of `LONG_MIN` by `-1` comes first and the evaluation
returns nothing. -/
theorem lval_eval_div_zero_counterexample :
    (0 : Int) ∈ [-1, 0] ∧
    lval_eval (sexpr (sym "/" :: num LONG_MIN :: [(-1 : Int), 0].map num)) ≠
      some (err "Division by zero!") := by
  decide

/-- C2, amended: when no division of `LONG_MIN` by `-1` comes before the
first zero divisor, `lval_eval` of `(/ n0 rest...)` on number operands is
`Error("Division by zero!")` exactly when some operand after the first is
0; what follows the first zero divisor does not change the result; a zero
dividend is not an error; `(/ 1 0 99)` evaluates to the error. -/
theorem lval_eval_div_zero_iff :
    (∀ (n0 : Int) (rest : List Int), in_long n0 →
      (∀ pre post : List Int, rest = pre ++ (-1) :: post → 0 ∉ pre →
        pre.foldl Int.tdiv n0 ≠ LONG_MIN) →
      (lval_eval (sexpr (sym "/" :: num n0 :: rest.map num)) =
        some (err "Division by zero!") ↔ 0 ∈ rest)) ∧
    (∀ (n0 : Int) (pre post : List Int), in_long n0 → 0 ∉ pre →
      (∀ p q : List Int, pre = p ++ (-1) :: q → p.foldl Int.tdiv n0 ≠ LONG_MIN) →
      lval_eval (sexpr (sym "/" :: num n0 :: (pre ++ 0 :: post).map num)) =
        some (err "Division by zero!")) ∧
    (∀ rest : List Int, 0 ∉ rest →
      lval_eval (sexpr (sym "/" :: num 0 :: rest.map num)) ≠
        some (err "Division by zero!")) ∧
    lval_eval (sexpr [sym "/", num 1, num 0, num 99]) = some (err "Division by zero!") := by
  have hloop : ∀ (n0 : Int) (rest : List Int),
      lval_eval (sexpr (sym "/" :: num n0 :: rest.map num)) =
        builtin_op_loop "/" n0 (rest.map num) := by
    intro n0 rest
    rw [lval_eval_sym_nums, builtin_op_map_cons]
    have hop : ¬ (("/" : String) = "-" ∧ rest.length = 0) := fun h => absurd h.1 (by decide)
    rw [if_neg hop]
  have hfirst : ∀ (n0 : Int) (pre post : List Int), in_long n0 → 0 ∉ pre →
      (∀ p q : List Int, pre = p ++ (-1) :: q → p.foldl Int.tdiv n0 ≠ LONG_MIN) →
      lval_eval (sexpr (sym "/" :: num n0 :: (pre ++ 0 :: post).map num)) =
        some (err "Division by zero!") := by
    intro n0 pre post hn0 hpre hov
    rw [hloop]
    exact builtin_op_loop_div_first_zero n0 pre post hn0 hpre hov
  refine ⟨?_, hfirst, ?_, by decide⟩
  · intro n0 rest hn0 hov
    constructor
    · intro h
      rw [hloop] at h
      exact builtin_op_loop_div_zero_mem n0 rest h
    · intro h0
      obtain ⟨pre, post, hsplit, hpre⟩ := List.eq_append_cons_of_mem h0
      rw [hsplit]
      apply hfirst n0 pre post hn0 hpre
      intro p q hpq
      apply hov p (q ++ 0 :: post)
      · rw [hsplit, hpq]; simp
      · intro hp
        exact hpre (by rw [hpq]; simp [hp])
  · intro rest h0 h
    rw [hloop] at h
    exact h0 (builtin_op_loop_div_zero_mem 0 rest h)

/-- C2, amended, at `(/ 1 0 99)`: 0 stands after the first operand, no
division comes before it, and the result is the error. -/
theorem lval_eval_div_zero_iff_witness :
    lval_eval (sexpr (sym "/" :: num 1 :: [(0 : Int), 99].map num)) =
      some (err "Division by zero!") :=
  (lval_eval_div_zero_iff.1 1 [0, 99] (by decide) (by
    intro pre post hsplit hpre
    cases pre with
    | nil => simp at hsplit
    | cons a pre1 =>
      simp only [List.cons_append, List.cons.injEq] at hsplit
      exact absurd (by simp [← hsplit.1]) hpre)).mpr (by decide)

/-- C3: for every operator string and every operand list holding a value
that is not a number, `builtin_op` returns
`Error("Cannot operator on a non-number!")`, whatever the other operands. -/
theorem builtin_op_non_number (op : String) (a : List lval)
    (h : ∃ c ∈ a, c.type ≠ .LVAL_NUM) :
    builtin_op a op = some (err "Cannot operator on a non-number!") :=
  builtin_op_of_not_num op a h

/-- C3, at operator `/` and operands `1, 0, Symbol "+"`: the zero divisor
standing before the symbol does not give a division error. -/
theorem builtin_op_non_number_witness :
    builtin_op [num 1, num 0, sym "+"] "/" =
      some (err "Cannot operator on a non-number!") :=
  builtin_op_non_number "/" [num 1, num 0, sym "+"] ⟨sym "+", by simp, by decide⟩

/-- C4, as stated, fails at `((/ 1 0) (/ LONG_MIN -1))`: the first child
evaluates to the division error, but every child is evaluated before the
errors are looked for, and the second one divides `LONG_MIN` by `-1`: the
evaluation returns nothing. -/
theorem lval_eval_first_error_counterexample :
    lval_eval (sexpr [sym "/", num 1, num 0]) = some (err "Division by zero!") ∧
    lval_eval (sexpr [sexpr [sym "/", num 1, num 0],
        sexpr [sym "/", num LONG_MIN, num (-1)]]) ≠ some (err "Division by zero!") := by
  decide

/-- C4, amended: when the evaluation of every child of an expression
returns, the child at index `i` evaluates to an error and no child before
it does, `lval_eval` of the expression is that error, with the same
message. -/
theorem lval_eval_first_error (cell : List lval) (i : Nat) (m : String)
    (hi : i < cell.length)
    (hret : ∀ c ∈ cell, lval_eval c ≠ none)
    (herr : lval_eval (cell.get ⟨i, hi⟩) = some (err m))
    (hmin : ∀ j (hj : j < i) (m1 : String),
      lval_eval (cell.get ⟨j, Nat.lt_trans hj hi⟩) ≠ some (err m1)) :
    lval_eval (sexpr cell) = some (err m) := by
  obtain ⟨cs, hcs⟩ := lval_eval_cells_returns cell hret
  have hmap := (lval_eval_cells_map cell cs).mp hcs
  have hlen : cs.length = cell.length := by
    have := congrArg List.length hmap
    simpa using this.symm
  have hget : ∀ j (hj : j < cell.length),
      lval_eval (cell.get ⟨j, hj⟩) = some (cs.get ⟨j, hlen ▸ hj⟩) := by
    intro j hj
    have h1 : (cell.map lval_eval)[j]? = (cs.map some)[j]? := by rw [hmap]
    simp only [List.getElem?_map, List.getElem?_eq_getElem hj,
      List.getElem?_eq_getElem (hlen ▸ hj), Option.map_some'] at h1
    simpa using Option.some.inj h1
  have hi1 : i < cs.length := hlen ▸ hi
  have hci : cs.get ⟨i, hi1⟩ = err m := by
    have := hget i hi
    rw [herr] at this
    exact (Option.some.inj this).symm
  have hfirst : first_err cs = some i := by
    rw [first_err_some_iff]
    refine ⟨hi1, by rw [hci]; rfl, ?_⟩
    intro j hj hty
    obtain ⟨m1, hm1⟩ := (type_err_iff _).mp hty
    have := hget j (Nat.lt_trans hj hi)
    rw [hm1] at this
    exact hmin j hj m1 this
  simp only [lval_eval, hcs, lval_eval_sexpr_reduce, hfirst]
  rw [lval_take_of_lt cs i hi1, hci]

/-- C4, amended, at `(7 (/ 1 0) (+ 1 +))`: the head is a number, the second child
evaluates to the division error and the third to another error; the result
is the division error. -/
theorem lval_eval_first_error_witness :
    lval_eval (sexpr [num 7, sexpr [sym "/", num 1, num 0],
        sexpr [sym "+", num 1, sym "+"]]) = some (err "Division by zero!") :=
  lval_eval_first_error
    [num 7, sexpr [sym "/", num 1, num 0], sexpr [sym "+", num 1, sym "+"]] 1
    "Division by zero!" (by decide) (by decide) (by decide) (by
      intro j hj m1
      have hj0 : j = 0 := by omega
      subst hj0
      simp [lval_eval])

/-- C5, as stated, fails at `((/ LONG_MIN -1) 1)`: no child evaluates to an
error and the first child does not evaluate to a symbol, but its evaluation
divides `LONG_MIN` by `-1` and returns nothing, and so does the evaluation
of the expression. -/
theorem lval_eval_head_not_symbol_counterexample :
    (∀ c ∈ [sexpr [sym "/", num LONG_MIN, num (-1)], num 1], ∀ m : String,
      lval_eval c ≠ some (err m)) ∧
    (∀ s : String, lval_eval (sexpr [sym "/", num LONG_MIN, num (-1)]) ≠ some (sym s)) ∧
    lval_eval (sexpr [sexpr [sym "/", num LONG_MIN, num (-1)], num 1]) ≠
      some (err "S-expression does not start with symbol!") := by
  have h0 : lval_eval (sexpr [sym "/", num LONG_MIN, num (-1)]) = none := by decide
  refine ⟨?_, ?_, by decide⟩
  · intro c hc m
    simp only [List.mem_cons, List.mem_singleton, List.not_mem_nil, or_false] at hc
    rcases hc with rfl | rfl
    · rw [h0]; exact fun h => by cases h
    · simp [lval_eval]
  · intro s
    rw [h0]
    exact fun h => by cases h

/-- C5, amended: for an expression with at least two children, the
evaluation of each of which returns a value that is not an error, and whose
first child does not evaluate to a symbol, `lval_eval` returns
`Error("S-expression does not start with symbol!")`. -/
theorem lval_eval_head_not_symbol (c0 c1 : lval) (cs : List lval)
    (hret : ∀ c ∈ c0 :: c1 :: cs, lval_eval c ≠ none)
    (hnoerr : ∀ c ∈ c0 :: c1 :: cs, ∀ m : String, lval_eval c ≠ some (err m))
    (hhead : ∀ s : String, lval_eval c0 ≠ some (sym s)) :
    lval_eval (sexpr (c0 :: c1 :: cs)) =
      some (err "S-expression does not start with symbol!") := by
  obtain ⟨rall, hcells0⟩ := lval_eval_cells_returns (c0 :: c1 :: cs) hret
  obtain ⟨r0, h0⟩ : ∃ r0, lval_eval c0 = some r0 := by
    cases h : lval_eval c0 with
    | none => exact absurd h (hret c0 (by simp))
    | some r => exact ⟨r, rfl⟩
  obtain ⟨r1, h1⟩ : ∃ r1, lval_eval c1 = some r1 := by
    cases h : lval_eval c1 with
    | none => exact absurd h (hret c1 (by simp))
    | some r => exact ⟨r, rfl⟩
  obtain ⟨rs, hs⟩ := lval_eval_cells_returns cs (fun c hc => hret c (by simp [hc]))
  have hcells : lval_eval_cells (c0 :: c1 :: cs) = some (r0 :: r1 :: rs) := by
    simp [lval_eval_cells, h0, h1, hs]
  have hmap := (lval_eval_cells_map _ _).mp hcells
  have hferr : first_err (r0 :: r1 :: rs) = none := by
    rw [first_err_none_iff]
    intro r hr hty
    obtain ⟨m, rfl⟩ := (type_err_iff r).mp hty
    have hmem : some (err m) ∈ (r0 :: r1 :: rs).map some := List.mem_map_of_mem _ hr
    rw [← hmap] at hmem
    obtain ⟨c, hc, hce⟩ := List.mem_map.mp hmem
    exact hnoerr c hc m hce
  have hr0 : ∀ s, r0 ≠ sym s := by
    intro s hs0
    exact hhead s (by rw [h0, hs0])
  simp only [lval_eval, hcells, lval_eval_sexpr_reduce, hferr, lval_pop_zero_cons,
    List.length_cons]
  cases r0 with
  | sym s => exact absurd rfl (hr0 s)
  | num n => simp
  | err m => simp
  | sexpr l => simp

/-- C5, amended, at `(1 2 3)`: the head is a number. -/
theorem lval_eval_head_not_symbol_witness :
    lval_eval (sexpr [num 1, num 2, num 3]) =
      some (err "S-expression does not start with symbol!") :=
  lval_eval_head_not_symbol (num 1) (num 2) [num 3] (by decide)
    (by
      intro c hc m
      simp only [List.mem_cons, List.mem_singleton, List.not_mem_nil, or_false] at hc
      rcases hc with rfl | rfl | rfl <;> simp [lval_eval])
    (by intro s; simp [lval_eval])

/-- C6: for every `long` `n` other than `LONG_MIN`, `lval_eval` of `(- n)`
is the number `-n`. -/
theorem lval_eval_unary_minus (n : Int) (hn : in_long n) (hmin : n ≠ LONG_MIN) :
    lval_eval (sexpr [sym "-", num n]) = some (num (-n)) := by
  have h := lval_eval_sym_nums "-" n []
  simp only [List.map_nil] at h
  rw [h]
  have h2 := builtin_op_map_cons "-" n []
  simp only [List.map_nil, List.length_nil, and_self, if_true] at h2
  rw [h2]
  have hw : wrap_long (-n) = -n := by
    apply wrap_long_of_in_long
    unfold in_long LONG_MIN LONG_MAX at *
    omega
  rw [hw]
  rfl

/-- C6, at `(- 5)`: the result is `Number(-5)`. -/
theorem lval_eval_unary_minus_witness :
    lval_eval (sexpr [sym "-", num 5]) = some (num (-5)) :=
  lval_eval_unary_minus 5 (by decide) (by decide)

/-- C7: `lval_eval` of a one-child expression `(c)` is `lval_eval` of `c`,
whatever `c` is; `(42)` evaluates to `Number(42)`. -/
theorem lval_eval_single_child :
    (∀ c : lval, lval_eval (sexpr [c]) = lval_eval c) ∧
    lval_eval (sexpr [num 42]) = some (num 42) := by
  refine ⟨?_, by decide⟩
  intro c
  cases hr : lval_eval c with
  | none =>
    have hcells : lval_eval_cells [c] = none := by
      simp [lval_eval_cells, hr]
    simp only [lval_eval, hcells]
  | some r =>
    have hcells : lval_eval_cells [c] = some [r] := by
      simp [lval_eval_cells, hr]
    simp only [lval_eval, hcells, lval_eval_sexpr_reduce]
    by_cases hty : r.type = .LVAL_ERR
    · simp [first_err, hty, lval_take, lval_pop]
    · simp [first_err, hty, lval_take, lval_pop]

/-- C8: `lval_eval` of the empty expression is the empty expression, which
is not an error, and `lval_print` writes it as `()`. -/
theorem lval_eval_empty :
    lval_eval (sexpr []) = some (sexpr []) ∧
    (sexpr []).type ≠ .LVAL_ERR ∧
    lval_print (sexpr []) = "()" := by
  refine ⟨by decide, by decide, by decide⟩

/-- C9: `lval_eval` returns a number, a symbol and an error unchanged. -/
theorem lval_eval_atom :
    (∀ n : Int, lval_eval (num n) = some (num n)) ∧
    (∀ s : String, lval_eval (sym s) = some (sym s)) ∧
    (∀ m : String, lval_eval (err m) = some (err m)) := by
  refine ⟨fun n => ?_, fun s => ?_, fun m => ?_⟩ <;> simp [lval_eval]

/-- C10, as stated, fails at `(/ LONG_MIN -1)`: the division is guarded for
a zero divisor only, the process is killed at `x->num /= y->num`, and
`lval_eval` returns no value, whatever the depth allowed to the calls. -/
theorem lval_eval_terminates_counterexample :
    (¬ ∃ r : lval, lval_eval (sexpr [sym "/", num LONG_MIN, num (-1)]) = some r) ∧
    lval_eval_fuel 2 (sexpr [sym "/", num LONG_MIN, num (-1)]) = none := by
  have h0 : lval_eval (sexpr [sym "/", num LONG_MIN, num (-1)]) = none := by decide
  refine ⟨?_, by decide⟩
  rintro ⟨r, hr⟩
  rw [h0] at hr
  cases hr

/-- C10, amended: on every value tree the recursion of `lval_eval` ends,
with a call stack of `lval_eval` no deeper than the nesting depth of the
tree plus one, and `lval_eval` returns a value exactly when the evaluation
executes no division of `LONG_MIN` by `-1`. -/
theorem lval_eval_terminates (v : lval) :
    ((∀ p ∈ lval_eval_divs v, ¬ div_overflow p) ↔ ∃ r : lval, lval_eval v = some r) ∧
    (∀ fuel : Nat, depth v < fuel → lval_eval_fuel fuel v = lval_eval v) := by
  refine ⟨⟨lval_eval_returns v, ?_⟩, lval_eval_fuel_eq v⟩
  rintro ⟨r, hr⟩ p hp hov
  have := (lval_eval_none_iff v).mpr ⟨p, hp, hov⟩
  rw [hr] at this
  cases this

/-- C10, amended, at `(/ (- 8) (+ 1 1) -1)`: the two divisions executed are
`-8 / 2` and `-4 / -1`, and the evaluation returns `Number(4)` with three
nested calls. -/
theorem lval_eval_terminates_witness :
    lval_eval_divs (sexpr [sym "/", sexpr [sym "-", num 8], sexpr [sym "+", num 1, num 1],
      num (-1)]) = [(-8, 2), (-4, -1)] ∧
    (∃ r : lval, lval_eval (sexpr [sym "/", sexpr [sym "-", num 8],
      sexpr [sym "+", num 1, num 1], num (-1)]) = some r) ∧
    lval_eval_fuel 3 (sexpr [sym "/", sexpr [sym "-", num 8], sexpr [sym "+", num 1, num 1],
      num (-1)]) = some (num 4) :=
  ⟨by decide,
   (lval_eval_terminates (sexpr [sym "/", sexpr [sym "-", num 8],
      sexpr [sym "+", num 1, num 1], num (-1)])).1.mp (by decide),
   ((lval_eval_terminates (sexpr [sym "/", sexpr [sym "-", num 8],
      sexpr [sym "+", num 1, num 1], num (-1)])).2 3 (by decide)).trans (by decide)⟩

/-! ## Division, unmatched operators and one operand -/

theorem builtin_op_loop_div (x : Int) (ns : List Int) (hx : in_long x)
    (hnz : ∀ y ∈ ns, y ≠ 0)
    (hov : ∀ j (hj : j < ns.length),
      ¬ ((ns.take j).foldl Int.tdiv x = LONG_MIN ∧ ns.get ⟨j, hj⟩ = -1)) :
    builtin_op_loop "/" x (ns.map num) = some (num (ns.foldl Int.tdiv x)) := by
  induction ns generalizing x with
  | nil => rfl
  | cons y ys ih =>
    have hy : y ≠ 0 := hnz y (List.mem_cons_self _ _)
    have h0 : ¬ (x = LONG_MIN ∧ y = -1) := by
      simpa using hov 0 (by simp)
    have hin : in_long (Int.tdiv x y) := in_long_tdiv x y hx hy h0
    have hstep : builtin_op_loop "/" x (num y :: ys.map num) =
        builtin_op_loop "/" (Int.tdiv x y) (ys.map num) := by
      rw [builtin_op_loop_div_step, if_neg hy, if_neg h0, wrap_long_of_in_long _ hin]
    rw [List.map_cons, hstep, List.foldl_cons]
    apply ih _ hin (fun z hz => hnz z (List.mem_cons_of_mem _ hz))
    intro j hj
    have := hov (j + 1) (by simpa using hj)
    simpa using this

theorem builtin_op_loop_unmatched (op : String) (hadd : op ≠ "+") (hsub : op ≠ "-")
    (hmul : op ≠ "*") (hdiv : op ≠ "/") (x : Int) (ns : List Int) :
    builtin_op_loop op x (ns.map num) = some (num x) := by
  induction ns with
  | nil => rfl
  | cons y ys ih => simpa [builtin_op_loop, hadd, hsub, hmul, hdiv] using ih

/-! ## The claims on division, operators and normal forms -/

/-- C14: for a `long` `n0` and divisors `rest` that are all non-zero, with no
division of `LONG_MIN` by `-1` on the way, `lval_eval` of `(/ n0 rest...)` is
the number obtained by the left fold of the division that truncates toward
zero. -/
theorem lval_eval_div_truncates (n0 : Int) (rest : List Int)
    (hn0 : in_long n0) (hnz : ∀ y ∈ rest, y ≠ 0)
    (hov : ∀ j (hj : j < rest.length),
      ¬ ((rest.take j).foldl Int.tdiv n0 = LONG_MIN ∧ rest.get ⟨j, hj⟩ = -1)) :
    lval_eval (sexpr (sym "/" :: num n0 :: rest.map num)) =
      some (num (rest.foldl Int.tdiv n0)) := by
  rw [lval_eval_sym_nums, builtin_op_map_cons]
  have hop : ¬ (("/" : String) = "-" ∧ rest.length = 0) := fun h => absurd h.1 (by decide)
  rw [if_neg hop]
  exact builtin_op_loop_div n0 rest hn0 hnz hov

/-- C14, at `(/ -7 2)` and `(/ 7 -2)`: both give `Number(-3)`, the quotient
rounded toward zero. -/
theorem lval_eval_div_truncates_witness :
    lval_eval (sexpr [sym "/", num (-7), num 2]) = some (num (-3)) ∧
    lval_eval (sexpr [sym "/", num 7, num (-2)]) = some (num (-3)) :=
  ⟨lval_eval_div_truncates (-7) [2] (by decide) (by decide) (by
      intro j hj h
      have hj0 : j = 0 := by simpa using hj
      subst hj0
      exact absurd h.1 (by decide)),
   lval_eval_div_truncates 7 [-2] (by decide) (by decide) (by
      intro j hj h
      have hj0 : j = 0 := by simpa using hj
      subst hj0
      exact absurd h.1 (by decide))⟩

/-- C15: for an operator string that is none of `+`, `-`, `*`, `/` and
number operands `n0, rest`, `builtin_op` returns the number `n0`, and so
does `lval_eval` of the expression `(op n0 rest...)`. -/
theorem builtin_op_unmatched (op : String) (n0 : Int) (rest : List Int)
    (hadd : op ≠ "+") (hsub : op ≠ "-") (hmul : op ≠ "*") (hdiv : op ≠ "/") :
    builtin_op (num n0 :: rest.map num) op = some (num n0) ∧
    lval_eval (sexpr (sym op :: num n0 :: rest.map num)) = some (num n0) := by
  have h : builtin_op (num n0 :: rest.map num) op = some (num n0) := by
    rw [builtin_op_map_cons]
    have hop : ¬ (op = "-" ∧ rest.length = 0) := fun h => hsub h.1
    rw [if_neg hop]
    exact builtin_op_loop_unmatched op hadd hsub hmul hdiv n0 rest
  exact ⟨h, by rw [lval_eval_sym_nums, h]⟩

/-- C15, at `(% 7 3)`: the result is `Number(7)`. -/
theorem builtin_op_unmatched_witness :
    builtin_op [num 7, num 3] "%" = some (num 7) ∧
    lval_eval (sexpr [sym "%", num 7, num 3]) = some (num 7) :=
  builtin_op_unmatched "%" 7 [3] (by decide) (by decide) (by decide) (by decide)

/-- C16: for every operator string other than `-` and every integer `n`,
`lval_eval` of `(op n)` is the number `n` unchanged. -/
theorem lval_eval_one_operand (op : String) (n : Int) (hop : op ≠ "-") :
    lval_eval (sexpr [sym op, num n]) = some (num n) := by
  have h := lval_eval_sym_nums op n []
  simp only [List.map_nil] at h
  rw [h]
  have h2 := builtin_op_map_cons op n []
  simp only [List.map_nil, List.length_nil, and_true, hop, if_false] at h2
  rw [h2]
  rfl

/-- C16, at `(/ 0)`: the result is `Number(0)`, not a division error. -/
theorem lval_eval_one_operand_witness :
    lval_eval (sexpr [sym "/", num 0]) = some (num 0) :=
  lval_eval_one_operand "/" 0 (by decide)

/-! ## Normal forms -/

theorem builtin_op_loop_type (op : String) (x : Int) (a : List lval) (r : lval)
    (h : builtin_op_loop op x a = some r) : r.type ≠ .LVAL_SEXPR := by
  induction a generalizing x with
  | nil =>
    simp only [builtin_op_loop, Option.some.injEq] at h
    subst h
    simp [type]
  | cons c cs ih =>
    cases c with
    | num y =>
      by_cases hd : op = "/"
      · by_cases hy : y = 0
        · subst hd
          rw [builtin_op_loop_div_step, if_pos hy] at h
          simp only [Option.some.injEq] at h
          subst h
          simp [type]
        · subst hd
          rw [builtin_op_loop_div_step, if_neg hy] at h
          by_cases ht : x = LONG_MIN ∧ y = -1
          · rw [if_pos ht] at h
            cases h
          · rw [if_neg ht] at h
            exact ih _ h
      · simp only [builtin_op_loop, hd, if_false] at h
        exact ih _ h
    | err m => simp [builtin_op_loop] at h
    | sym s => simp [builtin_op_loop] at h
    | sexpr l => simp [builtin_op_loop] at h

theorem builtin_op_type (a : List lval) (op : String) (r : lval)
    (h : builtin_op a op = some r) : r.type ≠ .LVAL_SEXPR := by
  unfold builtin_op at h
  by_cases hany : a.any (fun c => decide (c.type ≠ .LVAL_NUM)) = true
  · rw [if_pos hany] at h
    simp only [Option.some.injEq] at h
    subst h
    simp [type]
  · rw [if_neg hany] at h
    cases hp : lval_pop a 0 with
    | none => simp [hp] at h
    | some p =>
      obtain ⟨f, a1⟩ := p
      cases f with
      | num x =>
        simp only [hp] at h
        exact builtin_op_loop_type _ _ _ _ h
      | err m => simp [hp] at h
      | sym s => simp [hp] at h
      | sexpr l => simp [hp] at h

theorem lval_eval_sexpr_reduce_normal (cell : List lval)
    (hcell : ∀ c ∈ cell, c.type ≠ .LVAL_SEXPR ∨ c = sexpr []) (r : lval)
    (h : lval_eval_sexpr_reduce cell = some r) :
    r.type ≠ .LVAL_SEXPR ∨ r = sexpr [] := by
  unfold lval_eval_sexpr_reduce at h
  cases hf : first_err cell with
  | some i =>
    obtain ⟨hi, _, _⟩ := (first_err_some_iff cell i).mp hf
    simp only [hf, lval_take_of_lt cell i hi, Option.some.injEq] at h
    subst h
    exact hcell _ (List.get_mem _ _ _)
  | none =>
    simp only [hf] at h
    match cell, hcell, h with
    | [], _, h =>
      simp only [List.length_nil, if_true, Option.some.injEq] at h
      exact Or.inr h.symm
    | [c], hcell, h =>
      simp [lval_take, lval_pop] at h
      subst h
      exact hcell _ (List.mem_singleton_self _)
    | f :: c :: cs, _, h =>
      simp only [List.length_cons, lval_pop_zero_cons] at h
      cases f with
      | sym s =>
        have h1 : builtin_op (c :: cs) s = some r := by simpa using h
        exact Or.inl (builtin_op_type _ _ _ h1)
      | num n =>
        have h1 : err "S-expression does not start with symbol!" = r := by simpa using h
        subst h1; exact Or.inl (by simp [type])
      | err m =>
        have h1 : err "S-expression does not start with symbol!" = r := by simpa using h
        subst h1; exact Or.inl (by simp [type])
      | sexpr l =>
        have h1 : err "S-expression does not start with symbol!" = r := by simpa using h
        subst h1; exact Or.inl (by simp [type])

mutual
theorem lval_eval_normal : ∀ (v r : lval), lval_eval v = some r →
    r.type ≠ .LVAL_SEXPR ∨ r = sexpr []
  | num n, r, h => by
    simp only [lval_eval, Option.some.injEq] at h
    subst h; exact Or.inl (by simp [type])
  | err m, r, h => by
    simp only [lval_eval, Option.some.injEq] at h
    subst h; exact Or.inl (by simp [type])
  | sym s, r, h => by
    simp only [lval_eval, Option.some.injEq] at h
    subst h; exact Or.inl (by simp [type])
  | sexpr cell, r, h => by
    cases hcs : lval_eval_cells cell with
    | none => simp [lval_eval, hcs] at h
    | some cs =>
      simp only [lval_eval, hcs] at h
      exact lval_eval_sexpr_reduce_normal cs (lval_eval_cells_normal cell cs hcs) r h
theorem lval_eval_cells_normal : ∀ (cell cs : List lval), lval_eval_cells cell = some cs →
    ∀ c ∈ cs, c.type ≠ .LVAL_SEXPR ∨ c = sexpr []
  | [], cs, h => by
    simp only [lval_eval_cells, Option.some.injEq] at h
    subst h
    intro c hc
    cases hc
  | d :: ds, cs, h => by
    cases hr : lval_eval d with
    | none => simp [lval_eval_cells, hr] at h
    | some r =>
      cases hrs : lval_eval_cells ds with
      | none => simp [lval_eval_cells, hr, hrs] at h
      | some rs =>
        simp only [lval_eval_cells, hr, hrs, Option.some.injEq] at h
        subst h
        intro c hc
        rcases List.mem_cons.mp hc with rfl | hc1
        · exact lval_eval_normal d c hr
        · exact lval_eval_cells_normal ds rs hrs c hc1
end

theorem lval_eval_of_normal (r : lval) (h : r.type ≠ .LVAL_SEXPR ∨ r = sexpr []) :
    lval_eval r = some r := by
  rcases h with h | h
  · cases r <;> simp_all [lval_eval, type]
  · subst h
    rfl

/-- C18, as stated, fails at `(+ 1 (/ LONG_MIN -1))`: the evaluation of the
second operand divides `LONG_MIN` by `-1`, and `lval_eval` returns no value
at all, in normal form or not. -/
theorem lval_eval_normal_form_counterexample :
    ¬ ∃ r : lval,
      lval_eval (sexpr [sym "+", num 1, sexpr [sym "/", num LONG_MIN, num (-1)]]) = some r ∧
      ((∃ n, r = num n) ∨ (∃ m, r = err m) ∨ (∃ s, r = sym s) ∨ r = sexpr []) := by
  have h0 : lval_eval (sexpr [sym "+", num 1, sexpr [sym "/", num LONG_MIN, num (-1)]]) =
      none := by decide
  rintro ⟨r, hr, _⟩
  rw [h0] at hr
  cases hr

/-- C18, amended: when the evaluation of `v` executes no division of
`LONG_MIN` by `-1`, the result of `lval_eval` is a number, an error, a
symbol or the empty expression, never an expression with a child, and
evaluating it again gives it back: `lval_eval` is idempotent. -/
theorem lval_eval_normal_form (v : lval)
    (hdiv : ∀ p ∈ lval_eval_divs v, ¬ div_overflow p) :
    ∃ r : lval, lval_eval v = some r ∧
      ((∃ n, r = num n) ∨ (∃ m, r = err m) ∨ (∃ s, r = sym s) ∨ r = sexpr []) ∧
      (∀ c cs, r ≠ sexpr (c :: cs)) ∧
      lval_eval r = some r ∧
      (lval_eval v).bind lval_eval = lval_eval v := by
  obtain ⟨r, hr⟩ := lval_eval_returns v hdiv
  have hn := lval_eval_normal v r hr
  have hid := lval_eval_of_normal r hn
  refine ⟨r, hr, ?_, ?_, hid, by rw [hr]; exact hid⟩
  · rcases hn with hn | hn
    · cases r with
      | num n => exact Or.inl ⟨n, rfl⟩
      | err m => exact Or.inr (Or.inl ⟨m, rfl⟩)
      | sym s => exact Or.inr (Or.inr (Or.inl ⟨s, rfl⟩))
      | sexpr l => exact absurd rfl hn
    · exact Or.inr (Or.inr (Or.inr hn))
  · intro c cs hrc
    subst hrc
    rcases hn with hn | hn
    · exact hn rfl
    · cases hn

/-- C18, amended, at `((/ 9 3))`: one division, `9 / 3`, is executed, and
the result is `Number(3)`, which evaluates to itself. -/
theorem lval_eval_normal_form_witness :
    ∃ r : lval, lval_eval (sexpr [sexpr [sym "/", num 9, num 3]]) = some r ∧
      ((∃ n, r = num n) ∨ (∃ m, r = err m) ∨ (∃ s, r = sym s) ∨ r = sexpr []) ∧
      (∀ c cs, r ≠ sexpr (c :: cs)) ∧
      lval_eval r = some r ∧
      (lval_eval (sexpr [sexpr [sym "/", num 9, num 3]])).bind lval_eval =
        lval_eval (sexpr [sexpr [sym "/", num 9, num 3]]) :=
  lval_eval_normal_form (sexpr [sexpr [sym "/", num 9, num 3]]) (by decide)

/-- C19: when the first child of an expression is an expression that
evaluates to `Symbol op`, `lval_eval` gives what it gives with `Symbol op`
in its place: the head is tested after the children are evaluated. -/
theorem lval_eval_head_evaluated (hcell rest : List lval) (op : String)
    (hev : lval_eval (sexpr hcell) = some (sym op)) :
    lval_eval (sexpr (sexpr hcell :: rest)) = lval_eval (sexpr (sym op :: rest)) := by
  have h1 : lval_eval_cells (sexpr hcell :: rest) = lval_eval_cells (sym op :: rest) := by
    simp only [lval_eval_cells, hev]
    simp [lval_eval]
  simp only [lval_eval, h1]

/-- C19, at `((+) 1 2)`: the result is `Number(3)`. -/
theorem lval_eval_head_evaluated_witness :
    lval_eval (sexpr [sexpr [sym "+"], num 1, num 2]) = some (num 3) :=
  (lval_eval_head_evaluated [sym "+"] [num 1, num 2] "+" (by decide)).trans (by decide)

/-! ## Bounds of the pops -/

theorem builtin_op_loop_calls_ok (op : String) (a : List lval) :
    ∀ c ∈ builtin_op_loop_calls op a, c.ok := by
  induction a with
  | nil => intro c hc; cases hc
  | cons y ys ih =>
    have hpop : (call.pop (ys.length + 1) 0).ok := Nat.succ_pos _
    intro c hc
    cases y with
    | num n =>
      simp only [builtin_op_loop_calls, List.mem_cons] at hc
      rcases hc with rfl | hc
      · exact hpop
      · by_cases hz : op = "/" ∧ n = 0
        · rw [if_pos hz] at hc; cases hc
        · rw [if_neg hz] at hc; exact ih c hc
    | err m =>
      simp only [builtin_op_loop_calls, List.mem_cons] at hc
      rcases hc with rfl | hc
      · exact hpop
      · exact ih c hc
    | sym s =>
      simp only [builtin_op_loop_calls, List.mem_cons] at hc
      rcases hc with rfl | hc
      · exact hpop
      · exact ih c hc
    | sexpr l =>
      simp only [builtin_op_loop_calls, List.mem_cons] at hc
      rcases hc with rfl | hc
      · exact hpop
      · exact ih c hc

theorem builtin_op_calls_ok (op : String) (y : lval) (ys : List lval) :
    ∀ c ∈ builtin_op_calls (y :: ys) op, c.ok := by
  intro c hc
  simp only [builtin_op_calls, List.mem_cons, List.length_cons, List.tail_cons] at hc
  rcases hc with rfl | hc
  · exact Nat.succ_pos _
  · by_cases hany : (y :: ys).any (fun c => decide (c.type ≠ .LVAL_NUM)) = true
    · rw [if_pos hany] at hc; cases hc
    · rw [if_neg hany] at hc
      rcases List.mem_cons.mp hc with rfl | hc1
      · exact Nat.succ_pos _
      · exact builtin_op_loop_calls_ok op ys c hc1

theorem lval_eval_sexpr_reduce_calls_ok (cell : List lval) :
    ∀ c ∈ lval_eval_sexpr_reduce_calls cell, c.ok := by
  intro c hc
  unfold lval_eval_sexpr_reduce_calls at hc
  cases hf : first_err cell with
  | some i =>
    obtain ⟨hi, _, _⟩ := (first_err_some_iff cell i).mp hf
    simp only [hf, List.mem_singleton] at hc
    subst hc
    exact hi
  | none =>
    simp only [hf] at hc
    match cell, hc with
    | [], hc => simp at hc
    | [d], hc =>
      have hc1 : c = call.pop 1 0 := by simpa using hc
      subst hc1
      exact Nat.one_pos
    | f :: d :: ds, hc =>
      have hlen0 : ¬ (f :: d :: ds).length = 0 := by simp
      have hlen1 : ¬ (f :: d :: ds).length = 1 := by simp
      rw [if_neg hlen0, if_neg hlen1] at hc
      rcases List.mem_cons.mp hc with rfl | hc1
      · exact Nat.succ_pos _
      · cases f with
        | sym s => exact builtin_op_calls_ok s d ds c hc1
        | num n => cases hc1
        | err m => cases hc1
        | sexpr l => cases hc1

mutual
theorem lval_eval_calls_ok : ∀ (v : lval), ∀ c ∈ lval_eval_calls v, c.ok
  | num n, c, hc => by simp [lval_eval_calls] at hc
  | err m, c, hc => by simp [lval_eval_calls] at hc
  | sym s, c, hc => by simp [lval_eval_calls] at hc
  | sexpr cell, c, hc => by
    simp only [lval_eval_calls, List.mem_append] at hc
    rcases hc with hc | hc
    · exact lval_eval_cells_calls_ok cell c hc
    · cases hcs : lval_eval_cells cell with
      | none => simp [hcs] at hc
      | some cs =>
        simp only [hcs] at hc
        exact lval_eval_sexpr_reduce_calls_ok cs c hc
theorem lval_eval_cells_calls_ok : ∀ (cell : List lval), ∀ c ∈ lval_eval_cells_calls cell, c.ok
  | [], c, hc => by simp [lval_eval_cells_calls] at hc
  | d :: ds, c, hc => by
    simp only [lval_eval_cells_calls, List.mem_append] at hc
    rcases hc with hc | hc
    · exact lval_eval_calls_ok d c hc
    · exact lval_eval_cells_calls_ok ds c hc
end

/-- C20: every call of `lval_pop` or `lval_take` made while `lval_eval`
evaluates a value has its index below the count, every call of `builtin_op`
has a non-empty operand list, and the evaluation reaches no out-of-bounds
access: it returns a value unless it divides `LONG_MIN` by `-1`. -/
theorem lval_eval_in_bounds (v : lval) :
    (lval_eval_calls v).all (fun c => decide c.ok) = true ∧
    ((∀ p ∈ lval_eval_divs v, ¬ div_overflow p) → lval_eval v ≠ none) := by
  constructor
  · rw [List.all_eq_true]
    intro c hc
    exact decide_eq_true (lval_eval_calls_ok v c hc)
  · intro hdiv
    obtain ⟨r, hr⟩ := lval_eval_returns v hdiv
    rw [hr]
    exact Option.some_ne_none r

/-! ## The printer -/

theorem intercalate_go_append (x acc s : String) (as : List String) :
    String.intercalate.go (x ++ acc) s as = x ++ String.intercalate.go acc s as := by
  induction as generalizing acc with
  | nil => rfl
  | cons a as ih =>
    simp only [String.intercalate.go]
    rw [String.append_assoc x acc s, String.append_assoc x (acc ++ s) a, ih]

theorem intercalate_cons_cons (s a b : String) (rest : List String) :
    String.intercalate s (a :: b :: rest) = a ++ s ++ String.intercalate s (b :: rest) := by
  simp only [String.intercalate, String.intercalate.go]
  rw [intercalate_go_append]

mutual
theorem lval_print_eq_render : ∀ v : lval, lval_print v = render v
  | num n => by simp [lval_print, render]
  | err m => by simp [lval_print, render]
  | sym s => by simp [lval_print, render]
  | sexpr cell => by
    simp only [lval_print, render, lval_expr_print_loop_eq cell]
theorem lval_expr_print_loop_eq : ∀ cell : List lval,
    lval_expr_print_loop cell = String.intercalate " " (render_cells cell)
  | [] => by simp [lval_expr_print_loop, render_cells, String.intercalate]
  | [c] => by
    simp [lval_expr_print_loop, render_cells, String.intercalate, String.intercalate.go,
      lval_print_eq_render c]
  | c :: d :: ds => by
    have h1 := lval_print_eq_render c
    have h2 := lval_expr_print_loop_eq (d :: ds)
    simp only [render_cells] at h2
    simp only [render_cells, intercalate_cons_cons]
    rw [← h2, ← h1]
    simp [lval_expr_print_loop]
end

/-- C13: the text written by `lval_print` is the rendering that the
specification describes: the decimal text of a number, `Error: ` and the
message, the text of a symbol, and for an expression the renderings of the
children joined by single spaces between `(` and `)`. -/
theorem lval_print_renders :
    (∀ v : lval, lval_print v = render v) ∧
    (∀ cell : List lval,
      render (sexpr cell) = "(" ++ String.intercalate " " (cell.map render) ++ ")") ∧
    (∀ cell : List lval,
      lval_expr_print cell '(' ')' = "(" ++ String.intercalate " " (cell.map render) ++ ")") ∧
    lval_print (sexpr [sym "+", sexpr [], sexpr [num 1, sexpr [num (-2), err "e"]]]) =
      "(+ () (1 (-2 Error: e)))" := by
  have hcells : ∀ cell : List lval, render_cells cell = cell.map render := by
    intro cell
    induction cell with
    | nil => rfl
    | cons c cs ih => simp [render_cells, ih]
  refine ⟨lval_print_eq_render, ?_, ?_, by decide⟩
  · intro cell
    simp only [render, hcells]
  · intro cell
    simp only [lval_expr_print, lval_expr_print_loop_eq, hcells]
    rfl

/-! ## The reader -/

theorem strtol_digits_eq (acc : Nat) (ds : List Char) (hdig : ∀ c ∈ ds, c.isDigit = true) :
    strtol_digits acc ds = acc * 10 ^ ds.length + dec_value ds := by
  induction ds generalizing acc with
  | nil => simp [strtol_digits, dec_value]
  | cons c cs ih =>
    have hc : c.isDigit = true := hdig c (List.mem_cons_self _ _)
    simp only [strtol_digits, hc, if_true, dec_value, List.length_cons]
    rw [ih _ (fun d hd => hdig d (List.mem_cons_of_mem _ hd))]
    ring

theorem isDigit_not_space (c : Char) (h : c.isDigit = true) : isspace c = false := by
  simp only [isspace, Bool.or_eq_false_iff, decide_eq_false_iff_not]
  refine ⟨⟨⟨⟨⟨?_, ?_⟩, ?_⟩, ?_⟩, ?_⟩, ?_⟩ <;>
  · intro hcd
    subst hcd
    exact absurd h (by decide)

theorem isDigit_not_sign (c : Char) (h : c.isDigit = true) : c ≠ '-' ∧ c ≠ '+' := by
  constructor <;>
  · intro hcd
    subst hcd
    exact absurd h (by decide)

theorem strtol_signed (neg : Bool) (ds : List Char) (hds : ds ≠ [])
    (hdig : ∀ c ∈ ds, c.isDigit = true) :
    strtol (String.mk ((if neg then ['-'] else []) ++ ds)) =
      (if (if neg then -(dec_value ds : Int) else (dec_value ds : Int)) < LONG_MIN then
        (LONG_MIN, true)
      else if LONG_MAX < (if neg then -(dec_value ds : Int) else (dec_value ds : Int)) then
        (LONG_MAX, true)
      else ((if neg then -(dec_value ds : Int) else (dec_value ds : Int)), false)) := by
  obtain ⟨d, rest, rfl⟩ := List.exists_cons_of_ne_nil hds
  have hd : d.isDigit = true := hdig d (List.mem_cons_self _ _)
  have hval := strtol_digits_eq 0 (d :: rest) hdig
  simp only [Nat.zero_mul, Nat.zero_add] at hval
  cases neg with
  | true =>
    have hdw : List.dropWhile isspace ('-' :: d :: rest) = '-' :: d :: rest := by
      have hsp : isspace '-' = false := by decide
      simp [List.dropWhile, hsp]
    simp only [strtol, if_true, List.singleton_append, hdw,
      List.head?_cons, true_or, List.tail_cons, hval, decide_True]
  | false =>
    have hdw : List.dropWhile isspace (d :: rest) = d :: rest := by
      have hsp : isspace d = false := isDigit_not_space d hd
      simp [List.dropWhile, hsp]
    obtain ⟨hm, hp⟩ := isDigit_not_sign d hd
    simp only [strtol, Bool.false_eq_true, if_false, List.nil_append, hdw,
      List.head?_cons, Option.some.injEq, hm, hp, or_self, hval, decide_False]

theorem lval_read_mk (tag contents : String) (children : List mpc_ast_t) :
    lval_read (.mk tag contents children) =
      if strstr tag "number" then some (lval_read_num contents)
      else if strstr tag "symbol" then some (sym contents)
      else
        lval_read_loop children
          (if strstr tag "sexpr" then some (sexpr [])
           else if tag = ">" then some (sexpr []) else none) := rfl

theorem lval_read_number_node (tag contents : String) (children : List mpc_ast_t)
    (htag : strstr tag "number" = true) :
    lval_read (.mk tag contents children) = some (lval_read_num contents) := by
  rw [lval_read_mk, htag]
  rfl

theorem lval_read_num_signed (neg : Bool) (ds : List Char) (hds : ds ≠ [])
    (hdig : ∀ c ∈ ds, c.isDigit = true) :
    (in_long (if neg then -(dec_value ds : Int) else (dec_value ds : Int)) →
      lval_read_num (String.mk ((if neg then ['-'] else []) ++ ds)) =
        num (if neg then -(dec_value ds : Int) else (dec_value ds : Int))) ∧
    (¬ in_long (if neg then -(dec_value ds : Int) else (dec_value ds : Int)) →
      lval_read_num (String.mk ((if neg then ['-'] else []) ++ ds)) =
        err "invalid number") := by
  have hs := strtol_signed neg ds hds hdig
  generalize (if neg then -(dec_value ds : Int) else (dec_value ds : Int)) = v at hs
  constructor
  · intro hin
    have h1 : ¬ v < LONG_MIN := not_lt.mpr hin.1
    have h2 : ¬ LONG_MAX < v := not_lt.mpr hin.2
    simp only [lval_read_num, hs, h1, h2, if_false, if_true]
  · intro hout
    by_cases h1 : v < LONG_MIN
    · simp [lval_read_num, hs, h1]
    · have h2 : LONG_MAX < v := by
        by_contra h2
        exact hout ⟨not_lt.mp h1, not_lt.mp h2⟩
      simp [lval_read_num, hs, h1, h2]

theorem lval_read_loop_nil (x : Option lval) : lval_read_loop [] x = x := rfl

theorem lval_read_loop_cons (ctag ccontents : String) (cch cs : List mpc_ast_t)
    (x : Option lval) :
    lval_read_loop (.mk ctag ccontents cch :: cs) x =
      if ccontents = "(" then lval_read_loop cs x
      else if ccontents = ")" then lval_read_loop cs x
      else if ctag = "regex" then lval_read_loop cs x
      else
        match lval_read (.mk ctag ccontents cch), x with
        | some r, some v =>
          match lval_add v r with
          | some v1 => lval_read_loop cs (some v1)
          | none => none
        | _, _ => none := rfl

theorem lval_read_loop_kept (children : List mpc_ast_t) (acc rs : List lval)
    (h : (children.filter kept).map lval_read = rs.map some) :
    lval_read_loop children (some (sexpr acc)) = some (sexpr (acc ++ rs)) := by
  induction children generalizing acc rs with
  | nil =>
    cases rs with
    | nil => simp [lval_read_loop_nil]
    | cons r rs => simp at h
  | cons c cs ih =>
    cases c with
    | mk ctag ccontents cchildren =>
      by_cases hk : kept (.mk ctag ccontents cchildren) = true
      · have hk1 : ccontents ≠ "(" ∧ ccontents ≠ ")" ∧ ctag ≠ "regex" := by
          simpa [kept, mpc_ast_t.contents, mpc_ast_t.tag, and_assoc] using hk
        rw [List.filter_cons_of_pos hk] at h
        cases rs with
        | nil => simp at h
        | cons r rs =>
          simp only [List.map_cons, List.cons.injEq] at h
          obtain ⟨hr, hrest⟩ := h
          simp only [lval_read_loop_cons, hk1.1, hk1.2.1, hk1.2.2, if_false, hr, lval_add]
          rw [ih (acc ++ [r]) rs hrest]
          simp
      · have hk1 : ccontents = "(" ∨ ccontents = ")" ∨ ctag = "regex" := by
          by_contra hcon
          simp only [not_or] at hcon
          exact hk (by simp [kept, mpc_ast_t.contents, mpc_ast_t.tag, hcon.1, hcon.2.1, hcon.2.2])
        rw [List.filter_cons_of_neg hk] at h
        have hskip : lval_read_loop (.mk ctag ccontents cchildren :: cs) (some (sexpr acc)) =
            lval_read_loop cs (some (sexpr acc)) := by
          rw [lval_read_loop_cons]
          rcases hk1 with h1 | h1 | h1
          · simp [h1]
          · simp [h1]
          · simp [h1]
        rw [hskip]
        exact ih acc rs h

/-! ## The claims on the reader and the printer -/

/-- C11: on a node whose tag contains `number` and whose text is an optional
`-` followed by one or more decimal digits, `lval_read` returns the number
denoted by the text when it is in the range of a `long`, and
`Error("invalid number")` when it is not. -/
theorem lval_read_number (tag : String) (children : List mpc_ast_t) (neg : Bool)
    (ds : List Char) (htag : strstr tag "number" = true) (hds : ds ≠ [])
    (hdig : ∀ c ∈ ds, c.isDigit = true) :
    (in_long (if neg then -(dec_value ds : Int) else (dec_value ds : Int)) →
      lval_read (.mk tag (String.mk ((if neg then ['-'] else []) ++ ds)) children) =
        some (num (if neg then -(dec_value ds : Int) else (dec_value ds : Int)))) ∧
    (¬ in_long (if neg then -(dec_value ds : Int) else (dec_value ds : Int)) →
      lval_read (.mk tag (String.mk ((if neg then ['-'] else []) ++ ds)) children) =
        some (err "invalid number")) := by
  obtain ⟨h1, h2⟩ := lval_read_num_signed neg ds hds hdig
  rw [lval_read_number_node _ _ _ htag]
  exact ⟨fun hin => by rw [h1 hin], fun hout => by rw [h2 hout]⟩

/-- C11, at the texts `9223372036854775807`, `-9223372036854775808` and
`9223372036854775808`: the two bounds are numbers, the next integer is an
error. -/
theorem lval_read_number_witness :
    lval_read (.mk "expr|number|regex" "9223372036854775807" []) =
      some (num 9223372036854775807) ∧
    lval_read (.mk "expr|number|regex" "-9223372036854775808" []) =
      some (num (-9223372036854775808)) ∧
    lval_read (.mk "expr|number|regex" "9223372036854775808" []) =
      some (err "invalid number") :=
  ⟨(lval_read_number "expr|number|regex" [] false "9223372036854775807".data
      (by decide) (by decide) (by decide)).1 (by decide),
   (lval_read_number "expr|number|regex" [] true "9223372036854775808".data
      (by decide) (by decide) (by decide)).1 (by decide),
   (lval_read_number "expr|number|regex" [] false "9223372036854775808".data
      (by decide) (by decide) (by decide)).2 (by decide)⟩

/-- C12: on a grouping node (tag `>` or containing `sexpr`, containing
neither `number` nor `symbol`) `lval_read` returns the expression whose
children are the values read from the kept child nodes, in their order; on
a node whose tag contains `symbol` and not `number` it returns the symbol of
the text. -/
theorem lval_read_grouping :
    (∀ (tag contents : String) (children : List mpc_ast_t) (rs : List lval),
      strstr tag "number" = false → strstr tag "symbol" = false →
      (tag = ">" ∨ strstr tag "sexpr" = true) →
      (children.filter kept).map lval_read = rs.map some →
      lval_read (.mk tag contents children) = some (sexpr rs)) ∧
    (∀ (tag contents : String) (children : List mpc_ast_t),
      strstr tag "number" = false → strstr tag "symbol" = true →
      lval_read (.mk tag contents children) = some (sym contents)) := by
  constructor
  · intro tag contents children rs hnum hsym hgrp hkept
    have hloop := lval_read_loop_kept children [] rs hkept
    simp only [List.nil_append] at hloop
    simp only [lval_read_mk, hnum, hsym, Bool.false_eq_true, if_false]
    by_cases hs : strstr tag "sexpr" = true
    · simp only [hs, if_true]
      exact hloop
    · have ht : tag = ">" := by
        rcases hgrp with h | h
        · exact h
        · exact absurd h hs
      simp only [hs, ht, if_true, if_false]
      exact hloop
  · intro tag contents children hnum hsym
    simp [lval_read_mk, hnum, hsym]

/-- C12, at the tree of the text `(+ 007 ())`: the parentheses and the two
`regex` nodes are dropped, the other children are read in order; and at a
symbol node with text `%`. -/
theorem lval_read_grouping_witness :
    lval_read (.mk ">" "" [.mk "regex" "" [],
      .mk "expr|sexpr|>" "" [.mk "char" "(" [], .mk "expr|symbol|char" "+" [],
        .mk "expr|number|regex" "007" [],
        .mk "expr|sexpr|>" "" [.mk "char" "(" [], .mk "char" ")" []],
        .mk "char" ")" []],
      .mk "regex" "" []]) = some (sexpr [sexpr [sym "+", num 7, sexpr []]]) ∧
    lval_read (.mk "expr|symbol|char" "%" []) = some (sym "%") :=
  ⟨lval_read_grouping.1 ">" "" _ [sexpr [sym "+", num 7, sexpr []]]
      (by decide) (by decide) (Or.inl rfl) (by decide),
   lval_read_grouping.2 "expr|symbol|char" "%" [] (by decide) (by decide)⟩

/-! ## Reading a number and printing it -/

theorem isDigit_bounds (c : Char) (h : c.isDigit = true) : 48 ≤ c.toNat ∧ c.toNat ≤ 57 := by
  simp only [Char.isDigit, Bool.and_eq_true, decide_eq_true_eq, ge_iff_le] at h
  obtain ⟨h1, h2⟩ := h
  have h1n : (48 : UInt32).toNat ≤ c.val.toNat := h1
  have h2n : c.val.toNat ≤ (57 : UInt32).toNat := h2
  exact ⟨h1n, h2n⟩

theorem digitChar_of_isDigit (c : Char) (h : c.isDigit = true) :
    Nat.digitChar (c.toNat - '0'.toNat) = c := by
  obtain ⟨h1, h2⟩ := isDigit_bounds c h
  have hc := Char.ofNat_toNat c
  rw [← hc]
  generalize c.toNat = n at h1 h2
  interval_cases n <;> rfl

theorem digit_value_lt (c : Char) (h : c.isDigit = true) : c.toNat - '0'.toNat < 10 := by
  obtain ⟨_, h2⟩ := isDigit_bounds c h
  have h0 : '0'.toNat = 48 := rfl
  omega

theorem digit_value_pos (c : Char) (h : c.isDigit = true) (hz : c ≠ '0') :
    0 < c.toNat - '0'.toNat := by
  obtain ⟨h1, _⟩ := isDigit_bounds c h
  have h0 : '0'.toNat = 48 := rfl
  have hne : c.toNat ≠ 48 := by
    intro h48
    apply hz
    rw [← Char.ofNat_toNat c, h48]
  omega

theorem dec_value_append_singleton (ds : List Char) (d : Char) :
    dec_value (ds ++ [d]) = dec_value ds * 10 + (d.toNat - '0'.toNat) := by
  induction ds with
  | nil => simp [dec_value]
  | cons c cs ih =>
    have hlen : (cs ++ [d]).length = cs.length + 1 := by simp
    have hstep : dec_value (c :: (cs ++ [d])) =
        (c.toNat - '0'.toNat) * 10 ^ (cs ++ [d]).length + dec_value (cs ++ [d]) := rfl
    have hc : dec_value (c :: cs) = (c.toNat - '0'.toNat) * 10 ^ cs.length + dec_value cs := rfl
    rw [List.cons_append, hstep, hc, ih, hlen, pow_succ]
    ring

theorem dec_value_pos (c : Char) (cs : List Char) (hc : c.isDigit = true) (hz : c ≠ '0') :
    0 < dec_value (c :: cs) := by
  have h1 := digit_value_pos c hc hz
  have h2 : 0 < 10 ^ cs.length := Nat.pos_pow_of_pos _ (by decide)
  simp only [dec_value]
  have := Nat.mul_pos h1 h2
  omega

theorem toDigitsCore_dec_value (ds : List Char) (hdig : ∀ c ∈ ds, c.isDigit = true)
    (hds : ds ≠ []) (hcanon : ds.head? ≠ some '0' ∨ ds = ['0'])
    (fuel : Nat) (acc : List Char) (hfuel : dec_value ds < fuel) :
    Nat.toDigitsCore 10 fuel (dec_value ds) acc = ds ++ acc := by
  induction ds using List.reverseRecOn generalizing fuel acc with
  | nil => exact absurd rfl hds
  | append_singleton init d ih =>
    have hd : d.isDigit = true := hdig d (by simp)
    have hinit : ∀ c ∈ init, c.isDigit = true := fun c hc => hdig c (by simp [hc])
    have hlt := digit_value_lt d hd
    have hval := dec_value_append_singleton init d
    cases fuel with
    | zero => exact absurd hfuel (Nat.not_lt_zero _)
    | succ f =>
      have hmod : dec_value (init ++ [d]) % 10 = d.toNat - '0'.toNat := by
        rw [hval]; omega
      have hdiv : dec_value (init ++ [d]) / 10 = dec_value init := by
        rw [hval]; omega
      simp only [Nat.toDigitsCore, hmod, hdiv, digitChar_of_isDigit d hd]
      cases init with
      | nil => simp [dec_value]
      | cons c cs =>
        have hc : c.isDigit = true := hinit c (List.mem_cons_self _ _)
        have hcz : c ≠ '0' := by
          rcases hcanon with h | h
          · intro hc0
            apply h
            simp [hc0]
          · have := congrArg List.length h
            simp at this
        have hpos := dec_value_pos c cs hc hcz
        have hne : ¬ dec_value (c :: cs) = 0 := Nat.pos_iff_ne_zero.mp hpos
        rw [if_neg hne]
        have hf : dec_value (c :: cs) < f := by
          rw [hval] at hfuel
          omega
        rw [ih hinit (List.cons_ne_nil _ _) (Or.inl (by simpa using hcz)) f (d :: acc) hf]
        simp

theorem repr_dec_value (ds : List Char) (hdig : ∀ c ∈ ds, c.isDigit = true)
    (hds : ds ≠ []) (hcanon : ds.head? ≠ some '0' ∨ ds = ['0']) :
    toString (dec_value ds) = String.mk ds := by
  show (Nat.toDigits 10 (dec_value ds)).asString = String.mk ds
  unfold Nat.toDigits
  rw [toDigitsCore_dec_value ds hdig hds hcanon _ [] (Nat.lt_succ_self _)]
  simp [List.asString]

theorem toString_signed_dec_value (neg : Bool) (ds : List Char)
    (hdig : ∀ c ∈ ds, c.isDigit = true) (hds : ds ≠ [])
    (hcanon : ds.head? ≠ some '0' ∨ ds = ['0']) (hzero : ¬ (neg = true ∧ ds = ['0'])) :
    toString (if neg then -(dec_value ds : Int) else (dec_value ds : Int)) =
      String.mk ((if neg then ['-'] else []) ++ ds) := by
  have hrepr := repr_dec_value ds hdig hds hcanon
  cases neg with
  | false =>
    simp only [Bool.false_eq_true, if_false, List.nil_append]
    exact hrepr
  | true =>
    obtain ⟨c, cs, rfl⟩ := List.exists_cons_of_ne_nil hds
    have hc : c.isDigit = true := hdig c (List.mem_cons_self _ _)
    have hcz : c ≠ '0' := by
      rcases hcanon with h | h
      · intro hc0
        apply h
        simp [hc0]
      · exact absurd ⟨rfl, h⟩ hzero
    have hpos := dec_value_pos c cs hc hcz
    obtain ⟨m, hm⟩ := Nat.exists_eq_succ_of_ne_zero (Nat.pos_iff_ne_zero.mp hpos)
    have hneg : -(dec_value (c :: cs) : Int) = Int.negSucc m := by
      rw [hm]; rfl
    simp only [if_true, hneg]
    show "-" ++ toString (m.succ) = String.mk (['-'] ++ c :: cs)
    rw [← hm, hrepr]
    rfl

/-- C17: for a text made of an optional `-` and one or more decimal digits
whose value `n` is in the range of a `long`, printing what `lval_read`
returns on a number node with that text gives the decimal text of `n`; when
the text has no superfluous leading zero and is not `-0`, it is the text
itself. -/
theorem lval_read_print_roundtrip (tag : String) (children : List mpc_ast_t) (neg : Bool)
    (ds : List Char) (htag : strstr tag "number" = true) (hds : ds ≠ [])
    (hdig : ∀ c ∈ ds, c.isDigit = true)
    (hrange : in_long (if neg then -(dec_value ds : Int) else (dec_value ds : Int))) :
    (lval_read (.mk tag (String.mk ((if neg then ['-'] else []) ++ ds)) children)).map
        lval_print =
      some (toString (if neg then -(dec_value ds : Int) else (dec_value ds : Int))) ∧
    ((ds.head? ≠ some '0' ∨ ds = ['0']) → ¬ (neg = true ∧ ds = ['0']) →
      (lval_read (.mk tag (String.mk ((if neg then ['-'] else []) ++ ds)) children)).map
          lval_print =
        some (String.mk ((if neg then ['-'] else []) ++ ds))) := by
  have hread : lval_read (.mk tag (String.mk ((if neg then ['-'] else []) ++ ds)) children) =
      some (num (if neg then -(dec_value ds : Int) else (dec_value ds : Int))) := by
    rw [lval_read_number_node _ _ _ htag]
    rw [(lval_read_num_signed neg ds hds hdig).1 hrange]
  have hprint : ∀ n : Int, lval_print (num n) = toString n := fun n => by
    simp [lval_print]
  refine ⟨by rw [hread, Option.map_some', hprint], ?_⟩
  intro hcanon hzero
  rw [hread, Option.map_some', hprint,
    toString_signed_dec_value neg ds hdig hds hcanon hzero]

/-- C17, at the texts `-9223372036854775808`, which is reproduced, and
`007`, which is printed as `7`. -/
theorem lval_read_print_roundtrip_witness :
    (lval_read (.mk "expr|number|regex" "-9223372036854775808" [])).map lval_print =
      some "-9223372036854775808" ∧
    (lval_read (.mk "expr|number|regex" "007" [])).map lval_print = some "7" :=
  ⟨(lval_read_print_roundtrip "expr|number|regex" [] true "9223372036854775808".data
      (by decide) (by decide) (by decide) (by decide)).2 (by decide) (by decide),
   (lval_read_print_roundtrip "expr|number|regex" [] false "007".data
      (by decide) (by decide) (by decide) (by decide)).1⟩

end lval
